import Mathlib

/-!
# go-fence-rhprovider: a shallow embedding of `rhprovider.go`

The Red Hat fence-agent provider discovers agent executables, turns their
XML self-description into a `fence.Agent`, and drives them through a
line-based stdin protocol.  This file embeds the Go code as Lean functions:

* Go strings are Lean `String`s (text); byte lengths are UTF-8 lengths.
* `time.Duration` is an `Int` count of nanoseconds, wrapped to 64 bits
  where the Go code subtracts.
* Go maps are association lists with unique keys.
* Everything a subprocess, the clock, the file system or `encoding/xml`
  contributes is read from an explicit environment record, and everything
  the code does to a subprocess is recorded in a returned trace.
-/

set_option autoImplicit false

namespace RHProvider

/-! ## The `fence` package: data model -/

/-- Modelled from the spec: `fence.Action`, the closed enumeration
`None, On, Off, Reboot, Status, List, Monitor`; `None` is the zero value. -/
inductive Action where
  | None
  | On
  | Off
  | Reboot
  | Status
  | List
  | Monitor
  deriving DecidableEq, Repr

/-- Modelled from the spec: `fence.ContentType`, with the two values
`fence.String` and `fence.Boolean`. -/
inductive ContentType where
  | String
  | Boolean
  deriving DecidableEq, Repr

/-- Modelled from the spec: a Go `interface{}` holding a parameter default,
which the provider fills with a `string` or a `bool`. -/
inductive Value where
  | str (s : String)
  | bool (b : Bool)
  deriving DecidableEq, Repr

/-- Modelled from the spec: `fence.DeviceStatus`, `Ok` or `Ko`. -/
inductive DeviceStatus where
  | Ok
  | Ko
  deriving DecidableEq, Repr

/-- Error values.  `errorString` is what `errors.New` and `fmt.Errorf` over
string arguments build; `numError` is `*strconv.NumError`; `exitError` is
`*exec.ExitError`; `osError` is any other failure reported by `os/exec`,
`io`, `path/filepath` or `encoding/xml`; `deadline` is the error with which
`utils.WaitTimeout` reports an expired deadline; `wrapped pre cause` is the
`fmt.Errorf` of `LoadAgent`, whose text is `pre` followed by the text of
`cause`. -/
inductive GoError where
  | errorString (msg : String)
  | numError (fn : String) (num : String) (msg : String)
  | exitError (code : Int)
  | osError (msg : String)
  | deadline
  | wrapped (pre : String) (cause : GoError)
  deriving DecidableEq, Repr

/-- The type switch `err.(*exec.ExitError)`. -/
def GoError.isExitError : GoError → Bool
  | .exitError _ => true
  | _ => false

/-- Equality of results is decidable, so that the functions below can be
evaluated inside proofs. -/
instance instDecidableEqExcept {ε α : Type} [DecidableEq ε] [DecidableEq α] :
    DecidableEq (Except ε α)
  | .ok a, .ok b =>
    if h : a = b then isTrue (by rw [h]) else isFalse (by intro h2; cases h2; exact h rfl)
  | .error a, .error b =>
    if h : a = b then isTrue (by rw [h]) else isFalse (by intro h2; cases h2; exact h rfl)
  | .ok _, .error _ => isFalse (by intro h; cases h)
  | .error _, .ok _ => isFalse (by intro h; cases h)

/-- A Go `map[string]V`: an association list holding each key at most once.
The order of the entries is the order in which a `range` visits them. -/
abbrev GoMap (V : Type) := List (String × V)

/-- The map read `v, ok := m[k]`. -/
def GoMap.get? {V : Type} (m : GoMap V) (k : String) : Option V :=
  m.lookup k

/-- The map write `m[k] = v`: an entry already stored under `k` is replaced. -/
def GoMap.set {V : Type} (m : GoMap V) (k : String) (v : V) : GoMap V :=
  m.filter (fun e => e.1 != k) ++ [(k, v)]

/-- Modelled from the spec: `fence.Parameter`. -/
structure Parameter where
  Name : String
  Unique : Bool
  Required : Bool
  Desc : String
  ContentType : ContentType
  HasOptions : Bool
  Default : Option Value
  Options : List String
  deriving DecidableEq, Repr

/-- Modelled from the spec: `fence.Agent`. -/
structure Agent where
  Name : String
  ShortDesc : String
  LongDesc : String
  Parameters : GoMap Parameter
  Actions : List Action
  DefaultAction : Action
  MultiplePorts : Bool
  UnfenceAction : Action
  UnfenceOnTarget : Bool
  deriving DecidableEq, Repr

/-- Modelled from the spec: `fence.NewAgent`, an agent with an empty
parameter map and every other field at its zero value. -/
def NewAgent : Agent :=
  { Name := "", ShortDesc := "", LongDesc := "", Parameters := [], Actions := [],
    DefaultAction := .None, MultiplePorts := false, UnfenceAction := .None,
    UnfenceOnTarget := false }

/-- Modelled from the spec: `fence.AgentConfig`.  `Port` is empty when no
port was supplied; `Parameters` lists the multi-valued parameter map in the
order in which the `range` of `run` visits it. -/
structure AgentConfig where
  ProviderName : String
  Name : String
  Port : String
  Parameters : GoMap (List String)
  deriving DecidableEq, Repr

/-- Modelled from the spec: `fence.PortName`; an absent alias is the empty
string. -/
structure PortName where
  Name : String
  Alias : String
  deriving DecidableEq, Repr

/-- Modelled from the spec: `fence.PortList`. -/
abbrev PortList := List PortName

/-! ## The provider's own types (rhprovider.go 19-86) -/

/-- Go type `RHAgent`: the executable's path and the embedded `*fence.Agent`. -/
structure RHAgent where
  Command : String
  Agent : Agent
  deriving DecidableEq, Repr

/-- Go `newRHAgent` (rhprovider.go 33-35). -/
def newRHAgent : RHAgent :=
  { Command := "", Agent := NewAgent }

structure RHContentOptions where
  Value : String
  deriving DecidableEq, Repr

structure RHContent where
  ContentType : String
  Default : String
  Options : List RHContentOptions
  deriving DecidableEq, Repr

structure RHParameter where
  Name : String
  Unique : Bool
  Required : Bool
  ShortDesc : String
  Content : RHContent
  deriving DecidableEq, Repr

structure RHAction where
  Name : String
  OnTarget : String
  Automatic : String
  deriving DecidableEq, Repr

/-- Go type `RHResourceAgent`: the tree `encoding/xml` fills from the metadata. -/
structure RHResourceAgent where
  Command : String
  Name : String
  ShortDesc : String
  LongDesc : String
  VendorUrl : String
  Parameters : List RHParameter
  Actions : List RHAction
  deriving DecidableEq, Repr

structure RHAgentProviderConfig where
  Glob : String
  deriving DecidableEq, Repr

/-- Go type `RHAgentProvider`: the configuration and the name-keyed catalog. -/
structure RHAgentProvider where
  config : RHAgentProviderConfig
  agents : GoMap RHAgent
  deriving DecidableEq, Repr

def defaultGlob : String := "/usr/sbin/fence_*"

def defaultConfig : RHAgentProviderConfig := { Glob := defaultGlob }

/-- Go `New` (rhprovider.go 43-51); a nil `config` is `none`. -/
def New (config : Option RHAgentProviderConfig) : RHAgentProvider :=
  match config with
  | some c => { config := c, agents := [] }
  | none => { config := defaultConfig, agents := [] }

/-! ## Action tokens -/

/-- Go `ActionToString` (rhprovider.go 260-276). -/
def ActionToString (action : Action) : String :=
  match action with
  | .On => "on"
  | .Off => "off"
  | .Reboot => "reboot"
  | .Status => "status"
  | .List => "list"
  | .Monitor => "monitor"
  | .None => ""

/-- Go `StringToAction` (rhprovider.go 277-293).  On failure Go returns the
zero action together with the error; the zero action is dropped here. -/
def StringToAction (action : String) : Except GoError Action :=
  if action = "on" ∨ action = "enable" then .ok .On
  else if action = "off" ∨ action = "disable" then .ok .Off
  else if action = "reboot" then .ok .Reboot
  else if action = "status" then .ok .Status
  else if action = "list" then .ok .List
  else if action = "monitor" then .ok .Monitor
  else .error (.errorString ("Unknown fence action: " ++ action))

/-! ## Metadata normalisation -/

/-- Go `strconv.ParseBool`: the twelve accepted literals, and a syntax
`NumError` for every other string. -/
def ParseBool (str : String) : Except GoError Bool :=
  if str = "1" ∨ str = "t" ∨ str = "T" ∨ str = "TRUE" ∨ str = "true" ∨ str = "True" then
    .ok true
  else if str = "0" ∨ str = "f" ∨ str = "F" ∨ str = "FALSE" ∨ str = "false" ∨ str = "False" then
    .ok false
  else .error (.numError "ParseBool" str "invalid syntax")

/-- Lines 127-154 of `toResourceAgent`: the `fence.Parameter` built from one
declared parameter.  `agentName` is `a.Name`, used by the error message of
the `default` branch.  The content type of `p` is assigned in every branch
that goes on, so the value `p` starts with is never read. -/
def toParameter (agentName : String) (mdp : RHParameter) : Except GoError Parameter :=
  let p : Parameter :=
    { Name := mdp.Name, Unique := mdp.Unique, Required := mdp.Required,
      Desc := mdp.ShortDesc, ContentType := .String, HasOptions := false,
      Default := none, Options := [] }
  let typed : Except GoError Parameter :=
    if mdp.Content.ContentType = "boolean" then
      if mdp.Content.Default ≠ "" then
        match ParseBool mdp.Content.Default with
        | .error err => .error err
        | .ok value => .ok { p with ContentType := .Boolean, Default := some (.bool value) }
      else .ok { p with ContentType := .Boolean }
    else if mdp.Content.ContentType = "string" then
      if mdp.Content.Default ≠ "" then
        .ok { p with ContentType := .String, Default := some (.str mdp.Content.Default) }
      else .ok { p with ContentType := .String }
    else if mdp.Content.ContentType = "select" then
      if mdp.Content.Default ≠ "" then
        .ok { p with HasOptions := true, ContentType := .String,
                     Default := some (.str mdp.Content.Default) }
      else .ok { p with HasOptions := true, ContentType := .String }
    else
      .error (.errorString ("Agent: " ++ agentName ++ ", parameter: " ++ p.Name ++
        ". Wrong content type: " ++ mdp.Content.ContentType))
  match typed with
  | .error err => .error err
  | .ok q => .ok { q with Options := q.Options ++ mdp.Content.Options.map (fun o => o.Value) }

/-- The loop over `r.Parameters` (rhprovider.go 106-156), run on the agent
built so far.  An error return leaves the loop at once. -/
def convertParameters (a : RHAgent) : List RHParameter → Except GoError RHAgent
  | [] => .ok a
  | mdp :: rest =>
    if mdp.Name = "action" ∧ mdp.Content.Default ≠ "" then
      match StringToAction mdp.Content.Default with
      | .error _ => convertParameters a rest
      | .ok fa => convertParameters { a with Agent := { a.Agent with DefaultAction := fa } } rest
    else if mdp.Name = "port" then
      convertParameters { a with Agent := { a.Agent with MultiplePorts := true } } rest
    else if mdp.Name = "separator" then
      convertParameters a rest
    else
      match toParameter a.Agent.Name mdp with
      | .error err => .error err
      | .ok p =>
        convertParameters
          { a with Agent := { a.Agent with Parameters := a.Agent.Parameters.set p.Name p } } rest

/-- One round of the loop over `r.Parameters` (rhprovider.go 107-155): the
agent after the round, or the error with which the round returns. -/
def convertParameter (a : RHAgent) (mdp : RHParameter) : Except GoError RHAgent :=
  if mdp.Name = "action" ∧ mdp.Content.Default ≠ "" then
    match StringToAction mdp.Content.Default with
    | .error _ => .ok a
    | .ok fa => .ok { a with Agent := { a.Agent with DefaultAction := fa } }
  else if mdp.Name = "port" then
    .ok { a with Agent := { a.Agent with MultiplePorts := true } }
  else if mdp.Name = "separator" then
    .ok a
  else
    match toParameter a.Agent.Name mdp with
    | .error err => .error err
    | .ok p => .ok { a with Agent := { a.Agent with Parameters := a.Agent.Parameters.set p.Name p } }

/-- One round of the loop over `r.Actions` (rhprovider.go 158-171). -/
def convertAction (a : RHAgent) (mda : RHAction) : RHAgent :=
  let a1 : RHAgent :=
    if mda.Name = "on" then
      let a2 : RHAgent :=
        if mda.Automatic = "1" then { a with Agent := { a.Agent with UnfenceAction := .On } }
        else a
      if mda.OnTarget = "1" then { a2 with Agent := { a2.Agent with UnfenceOnTarget := true } }
      else a2
    else a
  match StringToAction mda.Name with
  | .error _ => a1
  | .ok fa => { a1 with Agent := { a1.Agent with Actions := a1.Agent.Actions ++ [fa] } }

/-- Go `RHResourceAgent.toResourceAgent` (rhprovider.go 98-174). -/
def RHResourceAgent.toResourceAgent (r : RHResourceAgent) : Except GoError RHAgent :=
  let a : RHAgent :=
    { Command := r.Command,
      Agent := { newRHAgent.Agent with
        Name := r.Name, ShortDesc := r.ShortDesc, LongDesc := r.LongDesc } }
  match convertParameters a r.Parameters with
  | .error err => .error err
  | .ok a1 => .ok (r.Actions.foldl convertAction a1)

/-! ## The environment: subprocesses, clock, file system, XML decoder -/

/-- How a child process ends, as `cmd.Wait` sees it: it ends with an exit
code (`ProcessState.ExitCode()`, which is -1 for a child ended by a signal),
or waiting for it fails (copying its output failed). -/
inductive ExitStatus where
  | exited (code : Int)
  | waitFailed (msg : String)
  deriving DecidableEq, Repr

/-- One spawned child (`exec.Command(...)`).  What the child does may depend
on the configuration stream it was fed, so its output, its end and its
running time are functions of the text written to its standard input. -/
structure Proc where
  /-- Failure of `cmd.StdinPipe()`. -/
  pipeErr : Option String
  /-- Failure of `cmd.Start()`. -/
  startErr : Option String
  /-- Failure of the `k`-th `Write` on the stdin pipe, counted from 0. -/
  writeErr : Nat → Option String
  /-- Standard output captured by the time the wait returns. -/
  stdout : String → String
  /-- How the child ends. -/
  status : String → ExitStatus
  /-- Whether the child is still running when the given deadline expires. -/
  overruns : String → Int → Bool

/-- Everything outside the program. -/
structure Env where
  /-- Go `exec.Command(name, args...)`. -/
  spawn : String → List String → Proc
  /-- Go `filepath.Glob`. -/
  glob : String → Except GoError (List String)
  /-- Go `time.Since(t)` as read at the head of the `k`-th round of the loop of
  `LoadAgents`, counted from 0. -/
  since : Nat → Int
  /-- Go `xml.Unmarshal` into a fresh `RHResourceAgent`. -/
  unmarshal : String → Except GoError RHResourceAgent

/-- Go `cmd.Wait()`: nil when the child ends with exit code 0, an
`*exec.ExitError` when it ends in any other way, another error when waiting
itself fails. -/
def cmdWait (cmd : Proc) (input : String) : Option GoError :=
  match cmd.status input with
  | .exited code => if code = 0 then none else some (.exitError code)
  | .waitFailed msg => some (.osError msg)

/-- Modelled from the spec: `utils.WaitTimeout` races the end of the child
against the deadline; on expiry the child is killed and a timeout error is
returned, otherwise the result of `cmd.Wait()`. -/
def WaitTimeout (cmd : Proc) (input : String) (timeout : Int) : Option GoError :=
  if cmd.overruns input timeout then some .deadline else cmdWait cmd input

/-- Two's-complement wrap of a 64-bit `time.Duration`. -/
def wrap64 (x : Int) : Int :=
  (x + 2 ^ 63) % 2 ^ 64 - 2 ^ 63

/-- Go `parseMetadata` (rhprovider.go 88-96). -/
def parseMetadata (env : Env) (mdxml : String) : Except GoError RHResourceAgent :=
  match env.unmarshal mdxml with
  | .error err => .error err
  | .ok v => .ok v

/-! ## The catalog -/

/-- Go `RHAgentProvider.getRHAgent` (rhprovider.go 236-242). -/
def RHAgentProvider.getRHAgent (p : RHAgentProvider) (name : String) : Except GoError RHAgent :=
  match p.agents.get? name with
  | none => .error (.errorString ("Unknown agent: " ++ name))
  | some a => .ok a

/-- Go `RHAgentProvider.GetAgents` (rhprovider.go 244-250). -/
def RHAgentProvider.GetAgents (p : RHAgentProvider) : GoMap Agent × Option GoError :=
  (p.agents.foldl (fun fagents e => fagents.set e.2.Agent.Name e.2.Agent) [], none)

/-- Go `RHAgentProvider.GetAgent` (rhprovider.go 252-258). -/
def RHAgentProvider.GetAgent (p : RHAgentProvider) (name : String) : Except GoError Agent :=
  match p.agents.get? name with
  | none => .error (.errorString ("Unknown agent: " ++ name))
  | some a => .ok a.Agent

/-- Go `RHAgentProvider.LoadAgent` (rhprovider.go 203-234). -/
def RHAgentProvider.LoadAgent (env : Env) (file : String) (timeout : Int) :
    Except GoError RHAgent :=
  let cmd := env.spawn file ["-o", "metadata"]
  match cmd.startErr with
  | some msg => .error (.osError msg)
  | none =>
    let err := if timeout = 0 then cmdWait cmd "" else WaitTimeout cmd "" timeout
    match err with
    | some e => .error e
    | none =>
      match parseMetadata env (cmd.stdout "") with
      | .error e => .error e
      | .ok mda =>
        match mda.toResourceAgent with
        | .error e => .error (.wrapped ("Agent \"" ++ mda.Name ++ "\": ") e)
        | .ok a => .ok { a with Command := file }

/-- What a call of `LoadAgents` leaves behind: the catalog, the returned
error, and the calls of `LoadAgent` it made, each with the file and the
timeout it handed over, in order. -/
structure LoadTrace where
  agents : GoMap RHAgent
  err : Option GoError
  started : List (String × Int)

/-- The loop of `LoadAgents` (rhprovider.go 187-199) from round `k` on. -/
def loadLoop (env : Env) (timeout : Int) :
    Nat → List String → GoMap RHAgent → List (String × Int) → LoadTrace
  | _, [], agents, started => { agents := agents, err := none, started := started }
  | k, file :: rest, agents, started =>
    let nexttimeout : Int := if timeout ≠ 0 then wrap64 (timeout - env.since k) else 0
    if timeout ≠ 0 ∧ nexttimeout < 0 then
      { agents := agents, err := some (.errorString "timeout"), started := started }
    else
      match RHAgentProvider.LoadAgent env file nexttimeout with
      | .error _ => loadLoop env timeout (k + 1) rest agents (started ++ [(file, nexttimeout)])
      | .ok a =>
        loadLoop env timeout (k + 1) rest (agents.set a.Agent.Name a)
          (started ++ [(file, nexttimeout)])

/-- Go `RHAgentProvider.LoadAgents` (rhprovider.go 176-201). -/
def RHAgentProvider.LoadAgents (env : Env) (p : RHAgentProvider) (timeout : Int) : LoadTrace :=
  match env.glob p.config.Glob with
  | .error err => { agents := [], err := some err, started := [] }
  | .ok files => loadLoop env timeout 0 files [] []

/-! ## Invoking an agent -/

/-- What a call of `run` did and returned: whether the child was started,
the `Write`s on its standard input that succeeded, in order, and the two
results (`nil` output is `none`). -/
structure RunTrace where
  spawned : Bool
  stdin : List String
  out : Option String
  err : Option GoError

/-- The texts `run` hands to `cmdstdin.Write`, in order
(rhprovider.go 313-331): the action line, the port line when a port is set,
one line per value of every parameter. -/
def configLines (ac : AgentConfig) (action : String) : List String :=
  ["action=" ++ action ++ "\n"] ++
  (if ac.Port ≠ "" then ["port=" ++ ac.Port ++ "\n"] else []) ++
  ac.Parameters.flatMap (fun e => e.2.map (fun value => e.1 ++ "=" ++ value ++ "\n"))

/-- The `Write`s of `run` from the `k`-th on: the first failing one ends
them with its error. -/
def writeAll (cmd : Proc) : Nat → List String → List String → List String × Option GoError
  | _, [], done => (done, none)
  | k, w :: ws, done =>
    match cmd.writeErr k with
    | some msg => (done, some (.osError msg))
    | none => writeAll cmd (k + 1) ws (done ++ [w])

/-- Go `RHAgentProvider.run` (rhprovider.go 295-345). -/
def RHAgentProvider.run (env : Env) (p : RHAgentProvider) (ac : AgentConfig) (action : String)
    (timeout : Int) : RunTrace :=
  match p.getRHAgent ac.Name with
  | .error err => { spawned := false, stdin := [], out := none, err := some err }
  | .ok a =>
    let cmd := env.spawn a.Command []
    match cmd.pipeErr with
    | some msg => { spawned := false, stdin := [], out := none, err := some (.osError msg) }
    | none =>
      match cmd.startErr with
      | some msg => { spawned := false, stdin := [], out := none, err := some (.osError msg) }
      | none =>
        match writeAll cmd 0 (configLines ac action) [] with
        | (written, some err) => { spawned := true, stdin := written, out := none, err := some err }
        | (written, none) =>
          let input := String.join written
          let err := if timeout = 0 then cmdWait cmd input else WaitTimeout cmd input timeout
          { spawned := true, stdin := written, out := some (cmd.stdout input), err := err }

/-- Go `RHAgentProvider.Status` (rhprovider.go 347-358). -/
def RHAgentProvider.Status (env : Env) (p : RHAgentProvider) (ac : AgentConfig) (timeout : Int) :
    DeviceStatus × Option GoError :=
  match (p.run env ac "status" timeout).err with
  | some err => if err.isExitError then (.Ko, none) else (.Ko, some err)
  | none => (.Ok, none)

/-- Go `RHAgentProvider.Monitor` (rhprovider.go 360-371). -/
def RHAgentProvider.Monitor (env : Env) (p : RHAgentProvider) (ac : AgentConfig) (timeout : Int) :
    DeviceStatus × Option GoError :=
  match (p.run env ac "monitor" timeout).err with
  | some err => if err.isExitError then (.Ko, none) else (.Ko, some err)
  | none => (.Ok, none)

/-- The call of `run` that `Run` makes (rhprovider.go 403-408), with what it
did to the child. -/
def RHAgentProvider.RunCall (env : Env) (p : RHAgentProvider) (ac : AgentConfig)
    (action : Action) (timeout : Int) : RunTrace :=
  let actionstr : String := if action ≠ .None then ActionToString action else ""
  p.run env ac actionstr timeout

/-- Go `RHAgentProvider.Run` (rhprovider.go 400-410). -/
def RHAgentProvider.Run (env : Env) (p : RHAgentProvider) (ac : AgentConfig) (action : Action)
    (timeout : Int) : Option GoError :=
  (p.RunCall env ac action timeout).err

/-! ## Reading the port list -/

/-- Go `bufio.MaxScanTokenSize`. -/
def MaxScanTokenSize : Nat := 64 * 1024

/-- The Go `len` of a string: its length in bytes. -/
def byteLen (s : List Char) : Nat :=
  (s.map Char.utf8Size).sum

/-- The newline-separated lines of a text, as `bufio.ScanLines` cuts them:
every newline ends a line, and text after the last newline is a last line. -/
def splitLines : List Char → List (List Char)
  | [] => []
  | c :: rest =>
    if c = '\n' then [] :: splitLines rest
    else
      match splitLines rest with
      | [] => [[c]]
      | l :: ls => (c :: l) :: ls

/-- Go `dropCR` of `bufio`: one trailing carriage return is removed. -/
def dropCR (data : List Char) : List Char :=
  if data.getLast? = some '\r' then data.dropLast else data

/-- The texts `scanner.Text()` yields over the successive `scanner.Scan()`
calls that return true, for a `bufio.Scanner` with its default split
function and buffer.  The scanner's buffer grows to `MaxScanTokenSize` bytes
and no further, so at the first line of that many bytes or more `Scan`
returns false (with `ErrTooLong`, which the caller never reads) and the
lines from there on are never delivered. -/
def scanTexts (out : List Char) : List (List Char) :=
  ((splitLines out).takeWhile (fun l => decide (byteLen l < MaxScanTokenSize))).map dropCR

/-- Go `strings.Split(s, sep)` for a one-character separator. -/
def Split (sep : Char) : List Char → List (List Char)
  | [] => [[]]
  | c :: rest =>
    if c = sep then [] :: Split sep rest
    else
      match Split sep rest with
      | [] => [[c]]
      | f :: fs => (c :: f) :: fs

/-- The body of the scan loop of `List` (rhprovider.go 383-393): the port
named by one line. -/
def portOfLine (line : List Char) : Except GoError PortName :=
  match Split ',' line with
  | [n] => .ok { Name := String.mk n, Alias := "" }
  | [n, a] => .ok { Name := String.mk n, Alias := String.mk a }
  | _ => .error (.errorString "Wrong list format")

/-- The scan loop of `List` (rhprovider.go 382-395) over the scanned texts,
appending to the ports read so far. -/
def scanPorts : List (List Char) → PortList → Except GoError PortList
  | [], portList => .ok portList
  | line :: rest, portList =>
    match portOfLine line with
    | .error err => .error err
    | .ok portName => scanPorts rest (portList ++ [portName])

/-- Lines 379-397 of `List`: the port list read from the captured output. -/
def parsePortList (out : String) : Except GoError PortList :=
  scanPorts (scanTexts out.data) []

/-- Go `RHAgentProvider.List` (rhprovider.go 373-398). -/
def RHAgentProvider.List (env : Env) (p : RHAgentProvider) (ac : AgentConfig) (timeout : Int) :
    Except GoError PortList :=
  let r := p.run env ac "list" timeout
  match r.err with
  | some err => .error err
  | none => parsePortList (r.out.getD "")

/-! ## Definitions that follow the specification's words -/

/-- The parameter a declaration stands for, in the words of the
specification: name, flags and description copied; content type Boolean for
`boolean` and String otherwise; options flag exactly for `select`; no default
for an empty default string, else the parsed boolean for `boolean` and the
string itself otherwise; the nested option values in document order. -/
def specParameter (mdp : RHParameter) : Parameter :=
  { Name := mdp.Name, Unique := mdp.Unique, Required := mdp.Required, Desc := mdp.ShortDesc,
    ContentType := if mdp.Content.ContentType = "boolean" then .Boolean else .String,
    HasOptions := decide (mdp.Content.ContentType = "select"),
    Default :=
      if mdp.Content.Default = "" then none
      else if mdp.Content.ContentType = "boolean" then
        some (.bool (decide (mdp.Content.Default ∈ ["1", "t", "T", "TRUE", "true", "True"])))
      else some (.str mdp.Content.Default),
    Options := mdp.Content.Options.map (fun o => o.Value) }

/-- The default action a declaration contributes: the action its default
names, for a parameter named `action` whose default is a recognised token. -/
def recognizedDefault (mdp : RHParameter) : Option Action :=
  if mdp.Name = "action" then (StringToAction mdp.Content.Default).toOption else none

/-- The outcomes of the single-agent loads of the candidates, in glob order:
the candidate of round `k` is loaded with what is left of the budget when the
round begins, or with no deadline when the budget is 0. -/
def loadOutcomes (env : Env) (timeout : Int) : Nat → List String → List (Except GoError RHAgent)
  | _, [] => []
  | k, file :: rest =>
    RHAgentProvider.LoadAgent env file
        (if timeout ≠ 0 then wrap64 (timeout - env.since k) else 0) ::
      loadOutcomes env timeout (k + 1) rest

/-- The port a line stands for, in the words of the specification: a line
without a comma is a name with no alias, and a line `n,a` is the name `n`
with the alias `a`. -/
def specPort (line : List Char) : PortName :=
  { Name := String.mk (line.takeWhile (fun c => c != ',')),
    Alias := String.mk ((line.dropWhile (fun c => c != ',')).drop 1) }

/-! ## Concrete inputs used by the evaluations below -/

/-- A child that starts, accepts every write, echoes its input and exits
with code 0, like `/bin/cat`. -/
def catProc : Proc :=
  { pipeErr := none, startErr := none, writeErr := fun _ => none,
    stdout := fun input => input, status := fun _ => .exited 0,
    overruns := fun _ _ => false }

/-- A child that starts, accepts every write, prints `out` and exits with
code `code`. -/
def printProc (out : String) (code : Int) : Proc :=
  { pipeErr := none, startErr := none, writeErr := fun _ => none,
    stdout := fun _ => out, status := fun _ => .exited code,
    overruns := fun _ _ => false }

/-- An environment in which every command behaves like `proc`, the glob
matches `files`, the clock reads `elapsed` at every round, and no metadata
parses. -/
def constEnv (proc : Proc) (files : List String) (elapsed : Int) : Env :=
  { spawn := fun _ _ => proc, glob := fun _ => .ok files, since := fun _ => elapsed,
    unmarshal := fun _ => .error (.osError "EOF") }

/-- The agent of `TestRun`, reduced to what `run` reads. -/
def agent01 : RHAgent :=
  { Command := "/bin/cat", Agent := { NewAgent with Name := "agent01", Actions := [.Off] } }

/-- The provider of `TestRun`: `agent01` registered under its name. -/
def provider01 : RHAgentProvider :=
  { config := defaultConfig, agents := [("agent01", agent01)] }

/-- The agent config of `TestRun`. -/
def config01 : AgentConfig :=
  { ProviderName := "fakeprovider", Name := "agent01", Port := "",
    Parameters := [("missingparam", ["bla"])] }

/-- A metadata tree declaring one parameter and no action. -/
def treeOf (mdp : RHParameter) : RHResourceAgent :=
  { Command := "", Name := "agent01", ShortDesc := "Fence agent01", LongDesc := "",
    VendorUrl := "", Parameters := [mdp], Actions := [] }

/-- A parameter `action` of content type `string` that declares no default. -/
def actionWithoutDefault : RHParameter :=
  { Name := "action", Unique := false, Required := true, ShortDesc := "Fencing Action",
    Content := { ContentType := "string", Default := "", Options := [] } }

/-- The parameter `param01` of the first error case of `TestToResourceAgent`:
content type `boolean`, default `badbool`. -/
def badboolParameter : RHParameter :=
  { Name := "param01", Unique := false, Required := false, ShortDesc := "param01",
    Content := { ContentType := "boolean", Default := "badbool", Options := [] } }

/-- The parameter `param01` of the second error case of
`TestToResourceAgent`: content type `wrongtype`, no default. -/
def wrongtypeParameter : RHParameter :=
  { Name := "param01", Unique := false, Required := false, ShortDesc := "param01",
    Content := { ContentType := "wrongtype", Default := "", Options := [] } }

/-- A metadata tree whose `action` parameter has the unrecognised default
`bogus` and which declares the actions `metadata` and `validate-all`. -/
def toleratedTree : RHResourceAgent :=
  { Command := "", Name := "agent01", ShortDesc := "Fence agent01", LongDesc := "",
    VendorUrl := "",
    Parameters :=
      [{ Name := "action", Unique := false, Required := true, ShortDesc := "Fencing Action",
         Content := { ContentType := "string", Default := "bogus", Options := [] } }],
    Actions := [{ Name := "metadata", OnTarget := "", Automatic := "" },
                { Name := "validate-all", OnTarget := "", Automatic := "" }] }

/-- A line of `MaxScanTokenSize` letters `a`. -/
def longLine : List Char := List.replicate 65536 'a'

/-- Captured output made of one line that ends in a carriage return. -/
def crOutput : String := "alpha\r\n"

/-- Captured output made of the one line `longLine`. -/
def longOutput : String := String.mk (longLine ++ ['\n'])

/-- Captured output made of the line `longLine` and then a line with two
commas. -/
def longThenMalformedOutput : String := String.mk (longLine ++ '\n' :: "x,y,z\n".data)

/-- The metadata tree of the first case of `TestToResourceAgent`. -/
def testTree : RHResourceAgent :=
  { Command := "", Name := "agent01", ShortDesc := "Fence agent01",
    LongDesc := "Fence Agent 01.", VendorUrl := "vendor01",
    Parameters :=
      [{ Name := "param01", Unique := false, Required := false, ShortDesc := "param01",
         Content := { ContentType := "string", Default := "123", Options := [] } },
       { Name := "param02", Unique := true, Required := true, ShortDesc := "param02",
         Content := { ContentType := "string", Default := "", Options := [] } },
       { Name := "param03", Unique := false, Required := true, ShortDesc := "param03",
         Content := { ContentType := "boolean", Default := "0", Options := [] } },
       { Name := "param04", Unique := true, Required := false, ShortDesc := "param04",
         Content := { ContentType := "boolean", Default := "1", Options := [] } },
       { Name := "param05", Unique := false, Required := false, ShortDesc := "param05",
         Content := { ContentType := "select", Default := "option01",
                      Options := [{ Value := "option01" }, { Value := "option02" }] } }],
    Actions :=
      [{ Name := "on", OnTarget := "1", Automatic := "1" },
       { Name := "off", OnTarget := "", Automatic := "" },
       { Name := "status", OnTarget := "", Automatic := "" },
       { Name := "list", OnTarget := "", Automatic := "" },
       { Name := "monitor", OnTarget := "", Automatic := "" },
       { Name := "metadata", OnTarget := "", Automatic := "" }] }

/-- A metadata tree with three `action` parameters, whose defaults are `off`,
`reboot` and the unrecognised `bogus`, a `port` parameter of an unknown
content type, and a parameter `login` declared twice. -/
def reservedTree : RHResourceAgent :=
  { Command := "", Name := "agent02", ShortDesc := "Fence agent02", LongDesc := "",
    VendorUrl := "",
    Parameters :=
      [{ Name := "action", Unique := false, Required := true, ShortDesc := "Fencing Action",
         Content := { ContentType := "string", Default := "off", Options := [] } },
       { Name := "login", Unique := false, Required := false, ShortDesc := "first",
         Content := { ContentType := "boolean", Default := "true", Options := [] } },
       { Name := "action", Unique := false, Required := true, ShortDesc := "Fencing Action",
         Content := { ContentType := "string", Default := "reboot", Options := [] } },
       { Name := "port", Unique := false, Required := false, ShortDesc := "Plug",
         Content := { ContentType := "wrongtype", Default := "", Options := [] } },
       { Name := "action", Unique := false, Required := true, ShortDesc := "Fencing Action",
         Content := { ContentType := "string", Default := "bogus", Options := [] } },
       { Name := "login", Unique := true, Required := true, ShortDesc := "second",
         Content := { ContentType := "string", Default := "", Options := [] } }],
    Actions :=
      [{ Name := "enable", OnTarget := "1", Automatic := "1" },
       { Name := "validate-all", OnTarget := "", Automatic := "" },
       { Name := "disable", OnTarget := "", Automatic := "" },
       { Name := "enable", OnTarget := "", Automatic := "" }] }

/-- A parameter of content type `select` that nests no option. -/
def selectWithoutOptions : RHParameter :=
  { Name := "mode", Unique := false, Required := false, ShortDesc := "Mode",
    Content := { ContentType := "select", Default := "", Options := [] } }

/-- An environment for `LoadAgents`: every candidate prints its own path and
exits with code 0; the output of `/usr/sbin/fence_bad` does not parse, and
every other output parses to a tree named `agent01` whose short description
is the path. -/
def loadEnv : Env :=
  { spawn := fun file _ => printProc file 0,
    glob := fun _ => .ok ["/usr/sbin/fence_a", "/usr/sbin/fence_bad", "/usr/sbin/fence_b"],
    since := fun _ => 0,
    unmarshal := fun mdxml =>
      if mdxml = "/usr/sbin/fence_bad" then .error (.osError "EOF")
      else .ok { Command := "", Name := "agent01", ShortDesc := mdxml, LongDesc := "",
                 VendorUrl := "", Parameters := [], Actions := [] } }

/-- A provider whose catalog holds one agent under the name `stale`. -/
def staleProvider : RHAgentProvider :=
  { config := defaultConfig, agents := [("stale", agent01)] }

/-- An agent config that names an agent the catalog of `provider01` lacks. -/
def unknownConfig : AgentConfig :=
  { ProviderName := "fakeprovider", Name := "agent99", Port := "1",
    Parameters := [("login", ["root"])] }

/-- Captured output with an empty line between two port lines. -/
def blankLineOutput : String := "alpha\n\nbravo\n"

/-- An agent config with a port and a parameter map of three names, one of
them with three values and one with none. -/
def multiConfig : AgentConfig :=
  { ProviderName := "fakeprovider", Name := "agent01", Port := "3",
    Parameters := [("ipaddr", ["10.0.0.1"]), ("opt", ["a", "b", "c"]), ("empty", [])] }

/-! ## Theorems -/

/-- C1 (evaluation at the failing input): a declared parameter named
`action` that has no default value is not skipped by the guard of line 108;
`toResourceAgent` succeeds and stores it in `Parameters` under the key
`action`. -/
theorem toResourceAgent_keeps_action_without_default :
    ∃ a, (treeOf actionWithoutDefault).toResourceAgent = .ok a ∧
      a.Agent.Parameters.get? "action" =
        some { Name := "action", Unique := false, Required := true, Desc := "Fencing Action",
               ContentType := .String, HasOptions := false, Default := none, Options := [] } := by
  refine ⟨_, rfl, ?_⟩
  decide

/-- C2 (evaluation at the failing input): `Run` with the action `None` on the
setup of `TestRun` returns no error, and the first thing it writes to the
standard input of the agent is the action line `action=` with an empty
value. -/
theorem Run_None_writes_action_line :
    provider01.Run (constEnv catProc [] 0) config01 .None 0 = none ∧
    (provider01.RunCall (constEnv catProc [] 0) config01 .None 0).spawned = true ∧
    (provider01.RunCall (constEnv catProc [] 0) config01 .None 0).stdin
      = ["action=\n", "missingparam=bla\n"] := by
  decide

/-- C3 (evaluation at the failing input): with a budget of 5 ns and exactly
5 ns elapsed when the only candidate is about to be started, `LoadAgents`
does not return the timeout error: it starts the candidate, handing
`LoadAgent` the timeout 0, which `LoadAgent` reads as "no deadline". -/
theorem LoadAgents_budget_met_starts_candidate :
    (provider01.LoadAgents (constEnv catProc ["/usr/sbin/fence_a"] 5) 5).err = none ∧
    (provider01.LoadAgents (constEnv catProc ["/usr/sbin/fence_a"] 5) 5).started
      = [("/usr/sbin/fence_a", 0)] := by
  decide

/-- C7: `ActionToString` undoes `StringToAction` on every accepted token but
the synonyms `enable` and `disable`; `StringToAction` undoes `ActionToString`
on the six actions other than `None`; `ActionToString None` is the empty
string, which `StringToAction` rejects. -/
theorem ActionToString_left_inverse :
    (∀ s a, StringToAction s = .ok a → s ≠ "enable" → s ≠ "disable" → ActionToString a = s) ∧
    (∀ a, a ≠ Action.None → StringToAction (ActionToString a) = .ok a) ∧
    ActionToString .None = "" ∧
    StringToAction (ActionToString .None) = .error (.errorString "Unknown fence action: ") := by
  refine ⟨?_, ?_, rfl, by decide⟩
  · intro s a h hen hdis
    unfold StringToAction at h
    split_ifs at h with h1 h2 h3 h4 h5 h6
    · cases h; rcases h1 with h1 | h1
      · simp [ActionToString, h1]
      · exact absurd h1 hen
    · cases h; rcases h2 with h2 | h2
      · simp [ActionToString, h2]
      · exact absurd h2 hdis
    · cases h; simp [ActionToString, h3]
    · cases h; simp [ActionToString, h4]
    · cases h; simp [ActionToString, h5]
    · cases h; simp [ActionToString, h6]
  · intro a ha
    cases a <;> first | exact absurd rfl ha | decide

/-- Witness for C7 at the token `reboot`. -/
theorem ActionToString_left_inverse_witness :
    StringToAction "reboot" = .ok .Reboot ∧ ActionToString .Reboot = "reboot" ∧
    StringToAction (ActionToString .Monitor) = .ok .Monitor :=
  ⟨by decide,
   ActionToString_left_inverse.1 "reboot" .Reboot (by decide) (by decide) (by decide),
   ActionToString_left_inverse.2.1 .Monitor (by decide)⟩

/-- C8: `StringToAction` accepts exactly the eight tokens `on`, `enable`,
`off`, `disable`, `reboot`, `status`, `list`, `monitor`, compared
case-sensitively, mapping `on`/`enable` to `On`, `off`/`disable` to `Off` and
the others to the action of the same name; on every other string `s`, the
empty one included, it fails with the message `Unknown fence action: `
followed by `s`. -/
theorem StringToAction_accepts_exactly (s : String) :
    (s = "on" ∨ s = "enable" → StringToAction s = .ok .On) ∧
    (s = "off" ∨ s = "disable" → StringToAction s = .ok .Off) ∧
    (s = "reboot" → StringToAction s = .ok .Reboot) ∧
    (s = "status" → StringToAction s = .ok .Status) ∧
    (s = "list" → StringToAction s = .ok .List) ∧
    (s = "monitor" → StringToAction s = .ok .Monitor) ∧
    (s ∉ ["on", "enable", "off", "disable", "reboot", "status", "list", "monitor"] →
      StringToAction s = .error (.errorString ("Unknown fence action: " ++ s))) ∧
    ((∃ a, StringToAction s = .ok a) ↔
      s ∈ ["on", "enable", "off", "disable", "reboot", "status", "list", "monitor"]) := by
  have hbad : s ∉ ["on", "enable", "off", "disable", "reboot", "status", "list", "monitor"] →
      StringToAction s = .error (.errorString ("Unknown fence action: " ++ s)) := by
    intro h
    simp only [List.mem_cons, List.mem_singleton, List.not_mem_nil, or_false, not_or] at h
    obtain ⟨h1, h2, h3, h4, h5, h6, h7, h8⟩ := h
    simp [StringToAction, h1, h2, h3, h4, h5, h6, h7, h8]
  refine ⟨?_, ?_, ?_, ?_, ?_, ?_, hbad, ?_⟩
  · rintro (h | h) <;> subst h <;> decide
  · rintro (h | h) <;> subst h <;> decide
  · rintro h; subst h; decide
  · rintro h; subst h; decide
  · rintro h; subst h; decide
  · rintro h; subst h; decide
  · constructor
    · rintro ⟨a, ha⟩
      by_contra hne
      rw [hbad hne] at ha
      cases ha
    · intro h
      simp only [List.mem_cons, List.mem_singleton, List.not_mem_nil, or_false] at h
      rcases h with h | h | h | h | h | h | h | h <;> subst h <;> exact ⟨_, rfl⟩

/-- Witness for C8 at the tokens `enable`, `On` and the empty string. -/
theorem StringToAction_accepts_exactly_witness :
    StringToAction "enable" = .ok .On ∧
    StringToAction "On" = .error (.errorString "Unknown fence action: On") ∧
    StringToAction "" = .error (.errorString "Unknown fence action: ") :=
  ⟨(StringToAction_accepts_exactly "enable").1 (Or.inr rfl),
   (StringToAction_accepts_exactly "On").2.2.2.2.2.2.1 (by decide),
   (StringToAction_accepts_exactly "").2.2.2.2.2.2.1 (by decide)⟩

/-! ### Status and Monitor -/

/-- When no `Write` fails, all the lines are written. -/
theorem writeAll_ok (cmd : Proc) :
    ∀ (ws : List String) (k : Nat) (done : List String),
      (∀ j, j < ws.length → cmd.writeErr (k + j) = none) →
      writeAll cmd k ws done = (done ++ ws, none) := by
  intro ws
  induction ws with
  | nil => intro k done _; simp [writeAll]
  | cons w ws ih =>
    intro k done h
    have h0 : cmd.writeErr k = none := by simpa using h 0 (by simp)
    have hrest : ∀ j, j < ws.length → cmd.writeErr (k + 1 + j) = none := by
      intro j hj
      have := h (j + 1) (by simpa using hj)
      rwa [show k + 1 + j = k + (j + 1) by omega]
    simp [writeAll, h0, ih (k + 1) (done ++ [w]) hrest]

/-- The first failing `Write` ends the writes with its error. -/
theorem writeAll_fail (cmd : Proc) :
    ∀ (ws : List String) (k : Nat) (done : List String) (i : Nat) (msg : String),
      i < ws.length → (∀ j, j < i → cmd.writeErr (k + j) = none) →
      cmd.writeErr (k + i) = some msg →
      writeAll cmd k ws done = (done ++ ws.take i, some (.osError msg)) := by
  intro ws
  induction ws with
  | nil => intro k done i msg hi; simp at hi
  | cons w ws ih =>
    intro k done i msg hi hbefore hat
    cases i with
    | zero =>
      have h0 : cmd.writeErr k = some msg := by simpa using hat
      simp [writeAll, h0]
    | succ i =>
      have h0 : cmd.writeErr k = none := by simpa using hbefore 0 (by omega)
      have hrest : ∀ j, j < i → cmd.writeErr (k + 1 + j) = none := by
        intro j hj
        have := hbefore (j + 1) (by omega)
        rwa [show k + 1 + j = k + (j + 1) by omega]
      have hat2 : cmd.writeErr (k + 1 + i) = some msg := by
        rwa [show k + 1 + i = k + (i + 1) by omega]
      have hi2 : i < ws.length := by simpa using hi
      simp [writeAll, h0, ih (k + 1) (done ++ [w]) i msg hi2 hrest hat2]

/-- The error of `run` in each course the invocation can take. -/
theorem run_err_cases (env : Env) (p : RHAgentProvider) (ac : AgentConfig) (token : String)
    (timeout : Int) :
    (p.agents.get? ac.Name = none →
      (p.run env ac token timeout).err = some (.errorString ("Unknown agent: " ++ ac.Name))) ∧
    (∀ a, p.agents.get? ac.Name = some a →
      (∀ msg, (env.spawn a.Command []).pipeErr = some msg →
        (p.run env ac token timeout).err = some (.osError msg)) ∧
      ((env.spawn a.Command []).pipeErr = none →
        ∀ msg, (env.spawn a.Command []).startErr = some msg →
          (p.run env ac token timeout).err = some (.osError msg)) ∧
      ((env.spawn a.Command []).pipeErr = none → (env.spawn a.Command []).startErr = none →
        (∀ i msg, i < (configLines ac token).length →
          (∀ j, j < i → (env.spawn a.Command []).writeErr j = none) →
          (env.spawn a.Command []).writeErr i = some msg →
          (p.run env ac token timeout).err = some (.osError msg)) ∧
        ((∀ j, j < (configLines ac token).length → (env.spawn a.Command []).writeErr j = none) →
          (p.run env ac token timeout).err =
            if timeout = 0 then cmdWait (env.spawn a.Command []) (String.join (configLines ac token))
            else WaitTimeout (env.spawn a.Command []) (String.join (configLines ac token))
              timeout))) := by
  refine ⟨?_, ?_⟩
  · intro h
    simp [RHAgentProvider.run, RHAgentProvider.getRHAgent, h]
  · intro a ha
    refine ⟨?_, ?_, ?_⟩
    · intro msg hp
      simp [RHAgentProvider.run, RHAgentProvider.getRHAgent, ha, hp]
    · intro hp msg hs
      simp [RHAgentProvider.run, RHAgentProvider.getRHAgent, ha, hp, hs]
    · intro hp hs
      refine ⟨?_, ?_⟩
      · intro i msg hi hbefore hat
        have hw := writeAll_fail (env.spawn a.Command []) (configLines ac token) 0 [] i msg hi
          (by simpa using hbefore) (by simpa using hat)
        simp [RHAgentProvider.run, RHAgentProvider.getRHAgent, ha, hp, hs, hw]
      · intro hall
        have hw := writeAll_ok (env.spawn a.Command []) (configLines ac token) 0 []
          (by simpa using hall)
        simp only [List.nil_append] at hw
        simp only [RHAgentProvider.run, RHAgentProvider.getRHAgent, ha, hp, hs, hw]

/-- C4: `Status` and `Monitor` read the outcome of the invocation in the same
way, the one sending the token `status` and the other `monitor`: an unknown
agent, a failure to open the pipe or to start the child, a failed write, an
expired deadline and a failed wait each give `Ko` with that (non-nil) error;
a child that ends with exit code 0 gives `Ok` and no error; a child that
ends with any other exit code gives `Ko` and no error. -/
theorem Status_Monitor_outcomes (env : Env) (p : RHAgentProvider) (ac : AgentConfig)
    (timeout : Int)
    (op : Env → RHAgentProvider → AgentConfig → Int → DeviceStatus × Option GoError)
    (token : String)
    (hop : (op = RHAgentProvider.Status ∧ token = "status") ∨
           (op = RHAgentProvider.Monitor ∧ token = "monitor")) :
    (p.agents.get? ac.Name = none →
      op env p ac timeout = (.Ko, some (.errorString ("Unknown agent: " ++ ac.Name)))) ∧
    (∀ a, p.agents.get? ac.Name = some a →
      (∀ msg, (env.spawn a.Command []).pipeErr = some msg →
        op env p ac timeout = (.Ko, some (.osError msg))) ∧
      ((env.spawn a.Command []).pipeErr = none →
        ∀ msg, (env.spawn a.Command []).startErr = some msg →
          op env p ac timeout = (.Ko, some (.osError msg))) ∧
      ((env.spawn a.Command []).pipeErr = none → (env.spawn a.Command []).startErr = none →
        (∀ i msg, i < (configLines ac token).length →
          (∀ j, j < i → (env.spawn a.Command []).writeErr j = none) →
          (env.spawn a.Command []).writeErr i = some msg →
          op env p ac timeout = (.Ko, some (.osError msg))) ∧
        ((∀ j, j < (configLines ac token).length → (env.spawn a.Command []).writeErr j = none) →
          (timeout ≠ 0 →
            (env.spawn a.Command []).overruns (String.join (configLines ac token)) timeout = true →
            op env p ac timeout = (.Ko, some .deadline)) ∧
          (timeout = 0 ∨
            (env.spawn a.Command []).overruns (String.join (configLines ac token)) timeout = false →
            ((env.spawn a.Command []).status (String.join (configLines ac token)) = .exited 0 →
              op env p ac timeout = (.Ok, none)) ∧
            (∀ code, code ≠ 0 →
              (env.spawn a.Command []).status (String.join (configLines ac token))
                = .exited code →
              op env p ac timeout = (.Ko, none)) ∧
            (∀ msg, (env.spawn a.Command []).status (String.join (configLines ac token))
                = .waitFailed msg →
              op env p ac timeout = (.Ko, some (.osError msg))))))) := by
  have hread : op env p ac timeout =
      match (p.run env ac token timeout).err with
      | some err => if err.isExitError then (.Ko, none) else (.Ko, some err)
      | none => (.Ok, none) := by
    rcases hop with ⟨h1, h2⟩ | ⟨h1, h2⟩ <;> subst h1 <;> subst h2 <;> rfl
  obtain ⟨hunknown, hknown⟩ := run_err_cases env p ac token timeout
  refine ⟨?_, ?_⟩
  · intro h
    rw [hread, hunknown h]; rfl
  · intro a ha
    obtain ⟨hpipe, hstart, hrun⟩ := hknown a ha
    refine ⟨?_, ?_, ?_⟩
    · intro msg hp
      rw [hread, hpipe msg hp]; rfl
    · intro hp msg hs
      rw [hread, hstart hp msg hs]; rfl
    · intro hp hs
      obtain ⟨hwrite, hwait⟩ := hrun hp hs
      refine ⟨?_, ?_⟩
      · intro i msg hi hbefore hat
        rw [hread, hwrite i msg hi hbefore hat]; rfl
      · intro hall
        have herr := hwait hall
        refine ⟨?_, ?_⟩
        · intro ht hover
          rw [hread, herr]
          simp [ht, WaitTimeout, hover, GoError.isExitError]
        · intro hin
          have hwaitErr : (p.run env ac token timeout).err =
              cmdWait (env.spawn a.Command []) (String.join (configLines ac token)) := by
            rw [herr]
            rcases hin with ht | hover
            · simp [ht]
            · by_cases ht : timeout = 0
              · simp [ht]
              · simp [ht, WaitTimeout, hover]
          refine ⟨?_, ?_, ?_⟩
          · intro hst
            rw [hread, hwaitErr]
            simp [cmdWait, hst]
          · intro code hcode hst
            rw [hread, hwaitErr]
            simp [cmdWait, hst, hcode, GoError.isExitError]
          · intro msg hst
            rw [hread, hwaitErr]
            simp [cmdWait, hst, GoError.isExitError]

/-- Witness for C4: on the setup of `TestRun`, where the child exits with code
0, `Status` returns `Ok` and no error; with a child that exits with code 1,
`Monitor` returns `Ko` and no error. -/
theorem Status_Monitor_outcomes_witness :
    provider01.Status (constEnv catProc [] 0) config01 0 = (.Ok, none) ∧
    provider01.Monitor (constEnv (printProc "" 1) [] 0) config01 0 = (.Ko, none) :=
  ⟨((((Status_Monitor_outcomes (constEnv catProc [] 0) provider01 config01 0
        RHAgentProvider.Status "status" (Or.inl ⟨rfl, rfl⟩)).2 agent01 (by decide)).2.2
        (by decide) (by decide)).2 (by decide)).2 (Or.inl rfl) |>.1 (by decide),
   ((((Status_Monitor_outcomes (constEnv (printProc "" 1) [] 0) provider01 config01 0
        RHAgentProvider.Monitor "monitor" (Or.inr ⟨rfl, rfl⟩)).2 agent01 (by decide)).2.2
        (by decide) (by decide)).2 (by decide)).2 (Or.inl rfl) |>.2.1 1 (by decide) (by decide)⟩

/-! ### Failures of the normalisation -/

/-- The function `ParseBool` fails exactly off its twelve literals. -/
theorem ParseBool_error_iff (d : String) :
    (∃ e, ParseBool d = .error e) ↔
      d ∉ ["1", "t", "T", "TRUE", "true", "True", "0", "f", "F", "FALSE", "false", "False"] := by
  simp only [List.mem_cons, List.mem_singleton, List.not_mem_nil, or_false]
  unfold ParseBool
  split_ifs with h1 h2
  · constructor
    · rintro ⟨e, he⟩; cases he
    · intro h; exact absurd (by tauto) h
  · constructor
    · rintro ⟨e, he⟩; cases he
    · intro h; exact absurd (by tauto) h
  · constructor
    · intro _; tauto
    · intro _; exact ⟨_, rfl⟩

/-- The conversion of one parameter fails exactly on a content type outside
`boolean`, `string`, `select`, and on a `boolean` whose non-empty default is
no boolean literal. -/
theorem toParameter_error_iff (agentName : String) (mdp : RHParameter) :
    (∃ e, toParameter agentName mdp = .error e) ↔
      (¬ (mdp.Content.ContentType = "boolean" ∨ mdp.Content.ContentType = "string" ∨
          mdp.Content.ContentType = "select") ∨
       (mdp.Content.ContentType = "boolean" ∧ mdp.Content.Default ≠ "" ∧
        mdp.Content.Default ∉
          ["1", "t", "T", "TRUE", "true", "True", "0", "f", "F", "FALSE", "false", "False"])) := by
  rw [← ParseBool_error_iff]
  unfold toParameter
  by_cases hb : mdp.Content.ContentType = "boolean"
  · by_cases hd : mdp.Content.Default = ""
    · simp [hb, hd]
    · cases hpb : ParseBool mdp.Content.Default with
      | error e => simp [hb, hd, hpb]
      | ok v => simp [hb, hd, hpb]
  · by_cases hs : mdp.Content.ContentType = "string"
    · by_cases hd : mdp.Content.Default = "" <;> simp [hs, hd]
    · by_cases hsel : mdp.Content.ContentType = "select"
      · by_cases hd : mdp.Content.Default = "" <;> simp [hsel, hd]
      · simp [hb, hs, hsel]

/-- The loop over the declared parameters fails exactly when one of them is
neither skipped nor convertible, provided every parameter named `action`
declares a default. -/
theorem convertParameters_error_iff (ps : List RHParameter)
    (haction : ∀ mdp ∈ ps, mdp.Name = "action" → mdp.Content.Default ≠ "") :
    ∀ a : RHAgent, (∃ e, convertParameters a ps = .error e) ↔
      ∃ mdp ∈ ps, mdp.Name ≠ "action" ∧ mdp.Name ≠ "port" ∧ mdp.Name ≠ "separator" ∧
        ∃ e, toParameter a.Agent.Name mdp = .error e := by
  induction ps with
  | nil => intro a; simp [convertParameters]
  | cons mdp rest ih =>
    have hrest : ∀ q ∈ rest, q.Name = "action" → q.Content.Default ≠ "" :=
      fun q hq => haction q (List.mem_cons_of_mem _ hq)
    have ih2 := ih hrest
    intro a
    by_cases hact : mdp.Name = "action"
    · have hd : mdp.Content.Default ≠ "" := haction mdp (List.mem_cons_self _ _) hact
      cases hsa : StringToAction mdp.Content.Default with
      | error e =>
        simp only [convertParameters, hact, hd, hsa, ne_eq, not_false_eq_true, and_self,
          if_true, List.mem_cons, exists_eq_or_imp, not_true_eq_false, false_and, false_or]
        exact ih2 a
      | ok fa =>
        simp only [convertParameters, hact, hd, hsa, ne_eq, not_false_eq_true, and_self,
          if_true, List.mem_cons, exists_eq_or_imp, not_true_eq_false, false_and, false_or]
        exact ih2 _
    · by_cases hport : mdp.Name = "port"
      · simp only [convertParameters, hact, hport, false_and, if_false, if_true, ne_eq,
          List.mem_cons, exists_eq_or_imp, not_true_eq_false, false_and, and_false, false_or]
        exact ih2 _
      · by_cases hsep : mdp.Name = "separator"
        · simp only [convertParameters, hact, hport, hsep, false_and, if_false, if_true, ne_eq,
            List.mem_cons, exists_eq_or_imp, not_true_eq_false, false_and, and_false, false_or]
          exact ih2 a
        · cases htp : toParameter a.Agent.Name mdp with
          | error e =>
            simp only [convertParameters, hact, hport, hsep, htp, false_and, if_false, ne_eq,
              List.mem_cons, exists_eq_or_imp, not_false_eq_true, true_and]
            constructor
            · intro _; exact Or.inl ⟨e, rfl⟩
            · intro _; exact ⟨e, rfl⟩
          | ok q =>
            simp only [convertParameters, hact, hport, hsep, htp, false_and, if_false, ne_eq,
              List.mem_cons, exists_eq_or_imp, not_false_eq_true, true_and]
            rw [ih2]
            constructor
            · intro h; exact Or.inr h
            · rintro (⟨e, he⟩ | h)
              · cases he
              · exact h

/-- C9: when every parameter named `action` declares a non-empty default,
`toResourceAgent` fails if and only if some declared parameter with a name
other than `action`, `port` and `separator` has a content type outside
`boolean`, `string`, `select`, or has the content type `boolean` and a
non-empty default that is not a boolean literal.  A failure is an error and
no agent, and the declared actions have no part in it: replacing them by any
other list of actions changes nothing about whether the call fails. -/
theorem toResourceAgent_fails_iff (r : RHResourceAgent)
    (haction : ∀ mdp ∈ r.Parameters, mdp.Name = "action" → mdp.Content.Default ≠ "") :
    ((∃ e, r.toResourceAgent = .error e) ↔
      ∃ mdp ∈ r.Parameters,
        mdp.Name ≠ "action" ∧ mdp.Name ≠ "port" ∧ mdp.Name ≠ "separator" ∧
        (¬ (mdp.Content.ContentType = "boolean" ∨ mdp.Content.ContentType = "string" ∨
            mdp.Content.ContentType = "select") ∨
         (mdp.Content.ContentType = "boolean" ∧ mdp.Content.Default ≠ "" ∧
          mdp.Content.Default ∉
            ["1", "t", "T", "TRUE", "true", "True", "0", "f", "F", "FALSE", "false",
             "False"]))) ∧
    (∀ acts : List RHAction,
      (∃ e, ({ r with Actions := acts } : RHResourceAgent).toResourceAgent = .error e) ↔
        ∃ e, r.toResourceAgent = .error e) := by
  have key : ∀ acts : List RHAction,
      (∃ e, ({ r with Actions := acts } : RHResourceAgent).toResourceAgent = .error e) ↔
      ∃ mdp ∈ r.Parameters,
        mdp.Name ≠ "action" ∧ mdp.Name ≠ "port" ∧ mdp.Name ≠ "separator" ∧
        (¬ (mdp.Content.ContentType = "boolean" ∨ mdp.Content.ContentType = "string" ∨
            mdp.Content.ContentType = "select") ∨
         (mdp.Content.ContentType = "boolean" ∧ mdp.Content.Default ≠ "" ∧
          mdp.Content.Default ∉
            ["1", "t", "T", "TRUE", "true", "True", "0", "f", "F", "FALSE", "false",
             "False"])) := by
    intro acts
    have hloop := convertParameters_error_iff r.Parameters haction
      { Command := r.Command,
        Agent := { newRHAgent.Agent with
          Name := r.Name, ShortDesc := r.ShortDesc, LongDesc := r.LongDesc } }
    simp only [toParameter_error_iff] at hloop
    rw [← hloop]
    unfold RHResourceAgent.toResourceAgent
    simp only
    cases convertParameters _ r.Parameters with
    | error e => simp
    | ok a1 => simp
  refine ⟨?_, ?_⟩
  · have := key r.Actions
    simpa using this
  · intro acts
    rw [key acts, ← key r.Actions]

/-- Witness for C9: the tree of `TestToResourceAgent` with the default
`badbool` fails, and a tree with an unrecognised default action and
unrecognised actions does not. -/
theorem toResourceAgent_fails_iff_witness :
    (∃ e, (treeOf badboolParameter).toResourceAgent = .error e) ∧
    ¬ (∃ e, toleratedTree.toResourceAgent = .error e) :=
  ⟨(toResourceAgent_fails_iff (treeOf badboolParameter) (by decide)).1.mpr
      ⟨badboolParameter, by decide, by decide, by decide, by decide, Or.inr (by decide)⟩,
   fun h => by
     obtain ⟨mdp, hmem, hname, _⟩ :=
       (toResourceAgent_fails_iff toleratedTree (by decide)).1.mp h
     simp only [toleratedTree, List.mem_singleton] at hmem
     subst hmem
     exact hname rfl⟩

/-- The loop over the declared parameters, reaching a parameter that is not
skipped and has an unknown content type after parameters that are all skipped
or converted, fails with the message naming the agent and that parameter. -/
theorem convertParameters_wrong_type (mdp : RHParameter) (post : List RHParameter)
    (hnotaction : ¬ (mdp.Name = "action" ∧ mdp.Content.Default ≠ ""))
    (hnotport : mdp.Name ≠ "port") (hnotsep : mdp.Name ≠ "separator")
    (htype : ¬ (mdp.Content.ContentType = "boolean" ∨ mdp.Content.ContentType = "string" ∨
      mdp.Content.ContentType = "select")) :
    ∀ (pre : List RHParameter) (a : RHAgent),
      (∀ q ∈ pre, (q.Name = "action" ∧ q.Content.Default ≠ "") ∨ q.Name = "port" ∨
        q.Name = "separator" ∨ q.Content.ContentType = "string" ∨
        q.Content.ContentType = "select" ∨
        (q.Content.ContentType = "boolean" ∧ (q.Content.Default = "" ∨ q.Content.Default ∈
          ["1", "t", "T", "TRUE", "true", "True", "0", "f", "F", "FALSE", "false",
           "False"]))) →
      convertParameters a (pre ++ mdp :: post) =
        .error (.errorString ("Agent: " ++ a.Agent.Name ++ ", parameter: " ++ mdp.Name ++
          ". Wrong content type: " ++ mdp.Content.ContentType)) := by
  intro pre
  induction pre with
  | nil =>
    intro a _
    have h1 : mdp.Content.ContentType ≠ "boolean" := fun h => htype (Or.inl h)
    have h2 : mdp.Content.ContentType ≠ "string" := fun h => htype (Or.inr (Or.inl h))
    have h3 : mdp.Content.ContentType ≠ "select" := fun h => htype (Or.inr (Or.inr h))
    simp only [List.nil_append, convertParameters, hnotaction, hnotport, hnotsep, if_false,
      toParameter, h1, h2, h3]
  | cons q pre ih =>
    intro a hpre
    have hq := hpre q (List.mem_cons_self _ _)
    have hrest := fun x hx => hpre x (List.mem_cons_of_mem _ hx)
    simp only [List.cons_append, convertParameters]
    split_ifs with c1 c2 c3
    · cases StringToAction q.Content.Default with
      | error e => exact ih a hrest
      | ok fa => exact ih _ hrest
    · exact ih _ hrest
    · exact ih a hrest
    · have hconv : ¬ ∃ e, toParameter a.Agent.Name q = .error e := by
        rw [toParameter_error_iff]
        rcases hq with h | h | h | h | h | ⟨h, hd⟩
        · exact absurd h c1
        · exact absurd h c2
        · exact absurd h c3
        · simp [h]
        · simp [h]
        · rcases hd with hd | hd
          · simp [h, hd]
          · simp only [h, true_or, not_true_eq_false, true_and, false_or, not_and, not_not]
            intro _; exact hd
      cases htp : toParameter a.Agent.Name q with
      | error e => exact absurd ⟨e, htp⟩ hconv
      | ok p => exact ih _ hrest

/-- C10: when the first declared parameter that is neither skipped nor
converted has a content type `t` outside `boolean`, `string` and `select`,
`toResourceAgent` fails with exactly the message
`Agent: <agent name>, parameter: <parameter name>. Wrong content type: <t>`,
the agent name being the name the tree reports and the parameter name that of
the offending parameter. -/
theorem toResourceAgent_wrong_content_type (r : RHResourceAgent)
    (pre post : List RHParameter) (mdp : RHParameter)
    (hsplit : r.Parameters = pre ++ mdp :: post)
    (hpre : ∀ q ∈ pre, (q.Name = "action" ∧ q.Content.Default ≠ "") ∨ q.Name = "port" ∨
      q.Name = "separator" ∨ q.Content.ContentType = "string" ∨
      q.Content.ContentType = "select" ∨
      (q.Content.ContentType = "boolean" ∧ (q.Content.Default = "" ∨ q.Content.Default ∈
        ["1", "t", "T", "TRUE", "true", "True", "0", "f", "F", "FALSE", "false", "False"])))
    (hnotaction : ¬ (mdp.Name = "action" ∧ mdp.Content.Default ≠ ""))
    (hnotport : mdp.Name ≠ "port") (hnotsep : mdp.Name ≠ "separator")
    (htype : ¬ (mdp.Content.ContentType = "boolean" ∨ mdp.Content.ContentType = "string" ∨
      mdp.Content.ContentType = "select")) :
    r.toResourceAgent =
      .error (.errorString ("Agent: " ++ r.Name ++ ", parameter: " ++ mdp.Name ++
        ". Wrong content type: " ++ mdp.Content.ContentType)) := by
  unfold RHResourceAgent.toResourceAgent
  simp only [hsplit]
  rw [convertParameters_wrong_type mdp post hnotaction hnotport hnotsep htype pre _ hpre]

/-- Witness for C10: the second error case of `TestToResourceAgent`. -/
theorem toResourceAgent_wrong_content_type_witness :
    (treeOf wrongtypeParameter).toResourceAgent =
      .error (.errorString "Agent: agent01, parameter: param01. Wrong content type: wrongtype") :=
  toResourceAgent_wrong_content_type (treeOf wrongtypeParameter) [] [] wrongtypeParameter rfl
    (by simp) (by decide) (by decide) (by decide) (by decide)

/-! ### The port list -/

/-- A first newline ends the first line. -/
theorem splitLines_append_newline (pre rest : List Char) (h : '\n' ∉ pre) :
    splitLines (pre ++ '\n' :: rest) = pre :: splitLines rest := by
  induction pre with
  | nil => simp [splitLines]
  | cons c pre ih =>
    have hc : c ≠ '\n' := fun hc => h (by simp [hc])
    have hpre : '\n' ∉ pre := fun hp => h (List.mem_cons_of_mem _ hp)
    simp [splitLines, hc, ih hpre]

/-- A run of `n` letters `a` is `n` bytes long. -/
theorem byteLen_replicate (n : Nat) : byteLen (List.replicate n 'a') = n := by
  induction n with
  | zero => rfl
  | succ n ih =>
    have h1 : Char.utf8Size 'a' = 1 := by decide
    simp only [byteLen, List.replicate_succ, List.map_cons, List.sum_cons, h1] at ih ⊢
    omega

/-- Text without the separator is one field. -/
theorem Split_no_sep (sep : Char) (l : List Char) (h : sep ∉ l) : Split sep l = [l] := by
  induction l with
  | nil => rfl
  | cons c l ih =>
    have hc : c ≠ sep := fun hc => h (by simp [hc])
    have hl : sep ∉ l := fun hp => h (List.mem_cons_of_mem _ hp)
    simp [Split, hc, ih hl]

/-- A first separator ends the first field. -/
theorem Split_append_sep (sep : Char) (n a : List Char) (h : sep ∉ n) :
    Split sep (n ++ sep :: a) = n :: Split sep a := by
  induction n with
  | nil => simp [Split]
  | cons c n ih =>
    have hc : c ≠ sep := fun hc => h (by simp [hc])
    have hn : sep ∉ n := fun hp => h (List.mem_cons_of_mem _ hp)
    simp [Split, hc, ih hn]

/-- A line without a comma is read as a name with no alias. -/
theorem specPort_no_comma (l : List Char) (h : ',' ∉ l) :
    specPort l = { Name := String.mk l, Alias := "" } := by
  have htake : l.takeWhile (fun c => c != ',') = l := by
    rw [List.takeWhile_eq_self_iff]
    intro x hx
    have : x ≠ ',' := fun hc => h (hc ▸ hx)
    simpa using this
  have hdrop : l.dropWhile (fun c => c != ',') = [] := by
    rw [List.dropWhile_eq_nil_iff]
    intro x hx
    have : x ≠ ',' := fun hc => h (hc ▸ hx)
    simpa using this
  simp only [specPort, htake, hdrop]
  rfl

/-- A line `n,a` is read as the name `n` with the alias `a`. -/
theorem specPort_comma (n a : List Char) (h : ',' ∉ n) :
    specPort (n ++ ',' :: a) = { Name := String.mk n, Alias := String.mk a } := by
  have hall : ∀ x ∈ n, (fun c : Char => c != ',') x = true := by
    intro x hx
    have : x ≠ ',' := fun hc => h (hc ▸ hx)
    simpa using this
  have htake : (n ++ ',' :: a).takeWhile (fun c => c != ',') = n := by
    rw [List.takeWhile_append_of_pos hall]
    simp
  have hdrop : (n ++ ',' :: a).dropWhile (fun c => c != ',') = ',' :: a := by
    rw [List.dropWhile_append_of_pos hall]
    simp
  simp only [specPort, htake, hdrop, List.drop_one, List.tail_cons]

/-- On a line with at most one comma the code builds the port the
specification describes. -/
theorem portOfLine_of_count_le_one (l : List Char) (h : l.count ',' ≤ 1) :
    portOfLine l = .ok (specPort l) := by
  by_cases hmem : ',' ∈ l
  · obtain ⟨n, a, hl, hn⟩ := List.eq_append_cons_of_mem hmem
    subst hl
    have ha : ',' ∉ a := by
      intro hin
      have h1 : 1 ≤ a.count ',' := List.count_pos_iff.mpr hin
      simp only [List.count_append, List.count_cons_self] at h
      omega
    rw [specPort_comma n a hn]
    simp [portOfLine, Split_append_sep ',' n a hn, Split_no_sep ',' a ha]
  · rw [specPort_no_comma l hmem]
    simp [portOfLine, Split_no_sep ',' l hmem]

/-- The scan loop over lines with at most one comma each appends one port per
line. -/
theorem scanPorts_of_count_le_one :
    ∀ (lines : List (List Char)) (portList : PortList),
      (∀ l ∈ lines, l.count ',' ≤ 1) →
      scanPorts lines portList = .ok (portList ++ lines.map specPort) := by
  intro lines
  induction lines with
  | nil => intro portList _; simp [scanPorts]
  | cons l lines ih =>
    intro portList h
    have hl := h l (List.mem_cons_self _ _)
    have hrest := fun x hx => h x (List.mem_cons_of_mem _ hx)
    simp [scanPorts, portOfLine_of_count_le_one l hl, ih _ hrest]

/-- Dropping a carriage return adds no comma. -/
theorem count_dropCR_le (l : List Char) : (dropCR l).count ',' ≤ l.count ',' := by
  unfold dropCR
  split_ifs
  · exact (List.dropLast_sublist l).count_le ','
  · exact Nat.le_refl _

/-- What the scan loop returns when every line is short enough to be scanned
and has at most one comma. -/
theorem parsePortList_of_lines (out : String)
    (hlines : ∀ l ∈ splitLines out.data, l.count ',' ≤ 1 ∧ byteLen l < MaxScanTokenSize) :
    parsePortList out = .ok ((splitLines out.data).map (fun l => specPort (dropCR l))) := by
  have htake : (splitLines out.data).takeWhile
      (fun l => decide (byteLen l < MaxScanTokenSize)) = splitLines out.data := by
    rw [List.takeWhile_eq_self_iff]
    intro l hl
    simpa using (hlines l hl).2
  unfold parsePortList scanTexts
  rw [htake, scanPorts_of_count_le_one]
  · simp [List.map_map, Function.comp_def]
  · intro l hl
    obtain ⟨l0, hl0, rfl⟩ := List.mem_map.mp hl
    exact le_trans (count_dropCR_le l0) (hlines l0 hl0).1

/-- The long line has no newline. -/
theorem longLine_no_newline : '\n' ∉ longLine := by
  unfold longLine
  intro h
  have := List.eq_of_mem_replicate h
  revert this; decide

/-- The long line is `MaxScanTokenSize` bytes long. -/
theorem byteLen_longLine : byteLen longLine = 65536 := by
  unfold longLine
  exact byteLen_replicate 65536

/-- The long line is not empty. -/
theorem longLine_ne_nil : longLine ≠ [] := by
  unfold longLine
  intro h
  have h2 := congrArg List.length h
  rw [List.length_replicate] at h2
  exact absurd h2 (by decide)

/-- The long line has no comma. -/
theorem count_comma_longLine : longLine.count ',' = 0 := by
  unfold longLine
  rw [List.count_replicate]
  rfl

/-- The lines of `longOutput`. -/
theorem splitLines_longOutput : splitLines longOutput.data = [longLine] := by
  show splitLines (longLine ++ '\n' :: []) = [longLine]
  rw [splitLines_append_newline longLine [] longLine_no_newline]
  rfl

/-- The lines of `longThenMalformedOutput`. -/
theorem splitLines_longThenMalformedOutput :
    splitLines longThenMalformedOutput.data = [longLine, "x,y,z".data] := by
  show splitLines (longLine ++ '\n' :: "x,y,z\n".data) = [longLine, "x,y,z".data]
  rw [splitLines_append_newline longLine _ longLine_no_newline]
  have : splitLines "x,y,z\n".data = ["x,y,z".data] := by decide
  rw [this]

/-- Nothing is scanned from an output that starts with `longLine`. -/
theorem scanTexts_longLine (rest : List (List Char)) :
    ((longLine :: rest).takeWhile (fun l => decide (byteLen l < MaxScanTokenSize))).map dropCR
      = [] := by
  have h : ¬ byteLen longLine < MaxScanTokenSize := by
    rw [byteLen_longLine]; decide
  simp [List.takeWhile_cons, h]

/-- The method `List` hands the output captured by a successful invocation to the scan
loop. -/
theorem List_of_output (env : Env) (p : RHAgentProvider) (ac : AgentConfig) (timeout : Int)
    (out : String) (herr : (p.run env ac "list" timeout).err = none)
    (hout : (p.run env ac "list" timeout).out = some out) :
    p.List env ac timeout = parsePortList out := by
  simp [RHAgentProvider.List, herr, hout]

/-- C5 (counterexample): the claim fails on two captured outputs whose lines
are all non-empty and comma-free.  On `alpha\r\n` the one line is `alpha\r`,
yet `List` returns a port named `alpha`; on a single line of 65536 letters
`List` succeeds with an empty port list. -/
theorem List_claim_fails_on_cr_and_long_line :
    ((provider01.run (constEnv (printProc crOutput 0) [] 0) config01 "list" 0).err = none ∧
     (provider01.run (constEnv (printProc crOutput 0) [] 0) config01 "list" 0).out
       = some crOutput ∧
     (∀ l ∈ splitLines crOutput.data, l ≠ [] ∧ l.count ',' ≤ 1) ∧
     provider01.List (constEnv (printProc crOutput 0) [] 0) config01 0
       = .ok [{ Name := "alpha", Alias := "" }] ∧
     provider01.List (constEnv (printProc crOutput 0) [] 0) config01 0
       ≠ .ok ((splitLines crOutput.data).map specPort)) ∧
    ((provider01.run (constEnv (printProc longOutput 0) [] 0) config01 "list" 0).err = none ∧
     (provider01.run (constEnv (printProc longOutput 0) [] 0) config01 "list" 0).out
       = some longOutput ∧
     (∀ l ∈ splitLines longOutput.data, l ≠ [] ∧ l.count ',' ≤ 1) ∧
     provider01.List (constEnv (printProc longOutput 0) [] 0) config01 0 = .ok [] ∧
     provider01.List (constEnv (printProc longOutput 0) [] 0) config01 0
       ≠ .ok ((splitLines longOutput.data).map specPort)) := by
  refine ⟨⟨rfl, rfl, by decide, by decide, by decide⟩, ⟨rfl, rfl, ?_, ?_, ?_⟩⟩
  · rw [splitLines_longOutput]
    intro l hl
    rw [List.mem_singleton] at hl
    subst hl
    exact ⟨longLine_ne_nil, by rw [count_comma_longLine]; omega⟩
  · rw [List_of_output (constEnv (printProc longOutput 0) [] 0) provider01 config01 0 longOutput
      rfl rfl]
    unfold parsePortList scanTexts
    rw [splitLines_longOutput, scanTexts_longLine]
    rfl
  · rw [List_of_output (constEnv (printProc longOutput 0) [] 0) provider01 config01 0 longOutput
      rfl rfl]
    unfold parsePortList scanTexts
    rw [splitLines_longOutput, scanTexts_longLine]
    intro h
    simp [scanPorts] at h

/-- C5 (amended): when the `list` invocation succeeds and every line of the
captured output is non-empty, shorter than `MaxScanTokenSize` bytes and has
at most one comma, `List` succeeds and returns one port per line, in output
order, read from the line without its trailing carriage return, if it has
one: text without a comma is a name with an empty alias, and `n,a` is the
name `n` with the alias `a`.  So `alpha\nbravo,B\n` gives the ports
`alpha` and `bravo` with alias `B`, and empty output gives no port. -/
theorem List_one_port_per_line (env : Env) (p : RHAgentProvider) (ac : AgentConfig)
    (timeout : Int) (out : String)
    (herr : (p.run env ac "list" timeout).err = none)
    (hout : (p.run env ac "list" timeout).out = some out)
    (hlines : ∀ l ∈ splitLines out.data,
      l ≠ [] ∧ l.count ',' ≤ 1 ∧ byteLen l < MaxScanTokenSize) :
    p.List env ac timeout = .ok ((splitLines out.data).map (fun l => specPort (dropCR l))) ∧
    (∀ l : List Char, ',' ∉ l → specPort l = { Name := String.mk l, Alias := "" }) ∧
    (∀ n a : List Char, ',' ∉ n →
      specPort (n ++ ',' :: a) = { Name := String.mk n, Alias := String.mk a }) ∧
    (out = "alpha\nbravo,B\n" →
      p.List env ac timeout = .ok [{ Name := "alpha", Alias := "" },
                                   { Name := "bravo", Alias := "B" }]) ∧
    (out = "" → p.List env ac timeout = .ok []) := by
  have hmain : p.List env ac timeout =
      .ok ((splitLines out.data).map (fun l => specPort (dropCR l))) := by
    rw [List_of_output env p ac timeout out herr hout]
    exact parsePortList_of_lines out (fun l hl => (hlines l hl).2)
  refine ⟨hmain, specPort_no_comma, specPort_comma, ?_, ?_⟩
  · intro h
    rw [hmain, h]
    decide
  · intro h
    rw [hmain, h]
    decide

/-- Witness for C5: the output `alpha\nbravo,B\n` of the specification, and
an output with a carriage return before the newline. -/
theorem List_one_port_per_line_witness :
    provider01.List (constEnv (printProc "alpha\nbravo,B\n" 0) [] 0) config01 0
      = .ok [{ Name := "alpha", Alias := "" }, { Name := "bravo", Alias := "B" }] ∧
    provider01.List (constEnv (printProc "alpha\r\nbravo,B\r\n" 0) [] 0) config01 0
      = .ok [{ Name := "alpha", Alias := "" }, { Name := "bravo", Alias := "B" }] :=
  ⟨(List_one_port_per_line (constEnv (printProc "alpha\nbravo,B\n" 0) [] 0) provider01 config01 0
      "alpha\nbravo,B\n" rfl rfl (by decide)).2.2.2.1 rfl,
   (List_one_port_per_line (constEnv (printProc "alpha\r\nbravo,B\r\n" 0) [] 0) provider01
      config01 0 "alpha\r\nbravo,B\r\n" rfl rfl (by decide)).1.trans (by decide)⟩

/-- C6 (evaluation at the failing input): the captured output is a line of
65536 letters followed by the line `x,y,z`, which has two commas; the
invocation succeeds and `List` returns an empty port list and no error. -/
theorem List_accepts_two_commas_after_long_line :
    (provider01.run (constEnv (printProc longThenMalformedOutput 0) [] 0) config01 "list" 0).err
      = none ∧
    (provider01.run (constEnv (printProc longThenMalformedOutput 0) [] 0) config01 "list" 0).out
      = some longThenMalformedOutput ∧
    "x,y,z".data ∈ splitLines longThenMalformedOutput.data ∧
    "x,y,z".data.count ',' = 2 ∧
    provider01.List (constEnv (printProc longThenMalformedOutput 0) [] 0) config01 0 = .ok [] := by
  refine ⟨rfl, rfl, ?_, by decide, ?_⟩
  · rw [splitLines_longThenMalformedOutput]
    simp
  · rw [List_of_output (constEnv (printProc longThenMalformedOutput 0) [] 0) provider01 config01 0
      longThenMalformedOutput rfl rfl]
    unfold parsePortList scanTexts
    rw [splitLines_longThenMalformedOutput, scanTexts_longLine]
    rfl

/-! ### Map reads after map writes -/

/-- Reading a map from which the key `k` was removed. -/
theorem lookup_filter_ne {V : Type} (m : GoMap V) (k k1 : String) :
    (m.filter (fun e => e.1 != k)).lookup k1 = if k1 = k then none else m.lookup k1 := by
  induction m with
  | nil => simp
  | cons e m ih =>
    obtain ⟨ek, ev⟩ := e
    by_cases hek : ek = k
    · subst hek
      by_cases hk : k1 = ek
      · subst hk
        simp [List.filter_cons, ih]
      · have hne : (k1 == ek) = false := by simpa using hk
        simp [List.filter_cons, ih, hk, List.lookup_cons, hne]
    · have hkeep : (ek != k) = true := by simpa using hek
      by_cases hk : k1 = k
      · subst hk
        have hne : (k1 == ek) = false := by simpa using fun h => hek h.symm
        simp [List.filter_cons, hkeep, List.lookup_cons, hne, ih]
      · by_cases hk1 : k1 = ek
        · subst hk1
          simp [List.filter_cons, hkeep, hk]
        · have hne : (k1 == ek) = false := by simpa using hk1
          simp [List.filter_cons, hkeep, List.lookup_cons, hne, ih, hk]

/-- A map read after a map write. -/
theorem GoMap.get?_set {V : Type} (m : GoMap V) (k k1 : String) (v : V) :
    (m.set k v).get? k1 = if k1 = k then some v else m.get? k1 := by
  unfold GoMap.set GoMap.get?
  rw [List.lookup_append, lookup_filter_ne]
  by_cases hk : k1 = k
  · subst hk; simp
  · have hne : (k1 == k) = false := by simpa using hk
    simp [hk, List.lookup_cons, hne]

/-- An entry of a map after a write is the written one or an old one. -/
theorem GoMap.mem_set {V : Type} (m : GoMap V) (k : String) (v : V) (e : String × V)
    (he : e ∈ m.set k v) : e = (k, v) ∨ e ∈ m := by
  unfold GoMap.set at he
  rcases List.mem_append.mp he with h | h
  · exact Or.inr (List.mem_filter.mp h).1
  · exact Or.inl (by simpa using h)

/-! ### The loop over the declared actions -/

/-- What the loop over the declared actions does to each field of the agent. -/
theorem foldl_convertAction (acts : List RHAction) :
    ∀ a : RHAgent,
      (acts.foldl convertAction a).Command = a.Command ∧
      (acts.foldl convertAction a).Agent.Name = a.Agent.Name ∧
      (acts.foldl convertAction a).Agent.ShortDesc = a.Agent.ShortDesc ∧
      (acts.foldl convertAction a).Agent.LongDesc = a.Agent.LongDesc ∧
      (acts.foldl convertAction a).Agent.Parameters = a.Agent.Parameters ∧
      (acts.foldl convertAction a).Agent.DefaultAction = a.Agent.DefaultAction ∧
      (acts.foldl convertAction a).Agent.MultiplePorts = a.Agent.MultiplePorts ∧
      (acts.foldl convertAction a).Agent.Actions =
        a.Agent.Actions ++ acts.filterMap (fun mda => (StringToAction mda.Name).toOption) ∧
      (acts.foldl convertAction a).Agent.UnfenceAction =
        (if ∃ mda ∈ acts, mda.Name = "on" ∧ mda.Automatic = "1" then Action.On
         else a.Agent.UnfenceAction) ∧
      (acts.foldl convertAction a).Agent.UnfenceOnTarget =
        (if ∃ mda ∈ acts, mda.Name = "on" ∧ mda.OnTarget = "1" then true
         else a.Agent.UnfenceOnTarget) := by
  induction acts with
  | nil => intro a; simp
  | cons mda acts ih =>
    intro a
    obtain ⟨h1, h2, h3, h4, h5, h6, h7, h8, h9, h10⟩ := ih (convertAction a mda)
    simp only [List.foldl_cons, h1, h2, h3, h4, h5, h6, h7, h8, h9, h10]
    have hstep : (convertAction a mda).Command = a.Command ∧
        (convertAction a mda).Agent.Name = a.Agent.Name ∧
        (convertAction a mda).Agent.ShortDesc = a.Agent.ShortDesc ∧
        (convertAction a mda).Agent.LongDesc = a.Agent.LongDesc ∧
        (convertAction a mda).Agent.Parameters = a.Agent.Parameters ∧
        (convertAction a mda).Agent.DefaultAction = a.Agent.DefaultAction ∧
        (convertAction a mda).Agent.MultiplePorts = a.Agent.MultiplePorts ∧
        (convertAction a mda).Agent.Actions =
          a.Agent.Actions ++ ((StringToAction mda.Name).toOption).toList ∧
        (convertAction a mda).Agent.UnfenceAction =
          (if mda.Name = "on" ∧ mda.Automatic = "1" then Action.On
           else a.Agent.UnfenceAction) ∧
        (convertAction a mda).Agent.UnfenceOnTarget =
          (if mda.Name = "on" ∧ mda.OnTarget = "1" then true
           else a.Agent.UnfenceOnTarget) := by
      unfold convertAction
      by_cases hon : mda.Name = "on" <;> by_cases hau : mda.Automatic = "1" <;>
        by_cases hot : mda.OnTarget = "1" <;>
        cases hsa : StringToAction mda.Name <;>
        simp [hon, hau, hot, Except.toOption]
    obtain ⟨s1, s2, s3, s4, s5, s6, s7, s8, s9, s10⟩ := hstep
    refine ⟨s1, s2, s3, s4, s5, s6, s7, ?_, ?_, ?_⟩
    · rw [s8, List.filterMap_cons]
      cases hsa : (StringToAction mda.Name).toOption <;> simp
    · rw [s9]
      by_cases hex : ∃ x ∈ acts, x.Name = "on" ∧ x.Automatic = "1"
      · have : ∃ x ∈ mda :: acts, x.Name = "on" ∧ x.Automatic = "1" := by
          obtain ⟨x, hx, hp⟩ := hex
          exact ⟨x, List.mem_cons_of_mem _ hx, hp⟩
        simp only [hex, this, if_true]
      · by_cases hm : mda.Name = "on" ∧ mda.Automatic = "1"
        · have : ∃ x ∈ mda :: acts, x.Name = "on" ∧ x.Automatic = "1" :=
            ⟨mda, List.mem_cons_self _ _, hm⟩
          simp only [hex, this, hm, if_true, if_false, and_self]
        · have : ¬ ∃ x ∈ mda :: acts, x.Name = "on" ∧ x.Automatic = "1" := by
            rintro ⟨x, hx, hp⟩
            rcases List.mem_cons.mp hx with rfl | hx
            · exact hm hp
            · exact hex ⟨x, hx, hp⟩
          simp only [hex, this, hm, if_false]
    · rw [s10]
      by_cases hex : ∃ x ∈ acts, x.Name = "on" ∧ x.OnTarget = "1"
      · have : ∃ x ∈ mda :: acts, x.Name = "on" ∧ x.OnTarget = "1" := by
          obtain ⟨x, hx, hp⟩ := hex
          exact ⟨x, List.mem_cons_of_mem _ hx, hp⟩
        simp only [hex, this, if_true]
      · by_cases hm : mda.Name = "on" ∧ mda.OnTarget = "1"
        · have : ∃ x ∈ mda :: acts, x.Name = "on" ∧ x.OnTarget = "1" :=
            ⟨mda, List.mem_cons_self _ _, hm⟩
          simp only [hex, this, hm, if_true, if_false, and_self]
        · have : ¬ ∃ x ∈ mda :: acts, x.Name = "on" ∧ x.OnTarget = "1" := by
            rintro ⟨x, hx, hp⟩
            rcases List.mem_cons.mp hx with rfl | hx
            · exact hm hp
            · exact hex ⟨x, hx, hp⟩
          simp only [hex, this, hm, if_false]

/-! ### The loop over the declared parameters -/

/-- The loop runs its rounds one after the other and stops at the first error. -/
theorem convertParameters_cons (a : RHAgent) (mdp : RHParameter) (rest : List RHParameter) :
    convertParameters a (mdp :: rest) =
      match convertParameter a mdp with
      | .error err => .error err
      | .ok a1 => convertParameters a1 rest := by
  unfold convertParameter
  rw [convertParameters]
  split_ifs
  · cases StringToAction mdp.Content.Default <;> rfl
  · rfl
  · rfl
  · cases toParameter a.Agent.Name mdp <;> rfl

/-- The boolean `ParseBool` returns is true exactly on the six true literals. -/
theorem ParseBool_ok (d : String) (v : Bool) (h : ParseBool d = .ok v) :
    v = decide (d ∈ ["1", "t", "T", "TRUE", "true", "True"]) := by
  unfold ParseBool at h
  split_ifs at h with h1 h2
  · cases h
    simp only [List.mem_cons, List.mem_singleton, List.not_mem_nil, or_false]
    simpa using h1
  · cases h
    simp only [List.mem_cons, List.mem_singleton, List.not_mem_nil, or_false]
    simpa using h1

/-- A converted parameter is the one the specification describes. -/
theorem toParameter_ok (agentName : String) (mdp : RHParameter) (p : Parameter)
    (h : toParameter agentName mdp = .ok p) : p = specParameter mdp := by
  unfold toParameter at h
  unfold specParameter
  by_cases hb : mdp.Content.ContentType = "boolean"
  · have hsel : mdp.Content.ContentType ≠ "select" := by rw [hb]; decide
    by_cases hd : mdp.Content.Default = ""
    · simp [hb, hd] at h
      subst h
      simp [hb, hd]
    · cases hpb : ParseBool mdp.Content.Default with
      | error e => simp [hb, hd, hpb] at h
      | ok v =>
        have hv := ParseBool_ok _ _ hpb
        simp [hb, hd, hpb] at h
        subst h
        simp [hb, hd, hv]
  · by_cases hs : mdp.Content.ContentType = "string"
    · have hsel : mdp.Content.ContentType ≠ "select" := by rw [hs]; decide
      by_cases hd : mdp.Content.Default = "" <;> simp [hs, hd] at h <;> subst h <;> simp [hs, hd]
    · by_cases hsel : mdp.Content.ContentType = "select"
      · by_cases hd : mdp.Content.Default = "" <;> simp [hsel, hd] at h <;> subst h <;>
          simp [hsel, hd]
      · simp [hb, hs, hsel] at h

/-- A parameter that the guard of line 108 lets through contributes no
default action. -/
theorem recognizedDefault_of_not_guard (mdp : RHParameter)
    (h : ¬ (mdp.Name = "action" ∧ mdp.Content.Default ≠ "")) : recognizedDefault mdp = none := by
  unfold recognizedDefault
  by_cases hn : mdp.Name = "action"
  · have hd : mdp.Content.Default = "" := by
      by_contra hd
      exact h ⟨hn, hd⟩
    rw [if_pos hn, hd]
    rfl
  · rw [if_neg hn]

/-- What one successful round of the parameter loop does to each field of the
agent. -/
theorem convertParameter_ok (a a1 : RHAgent) (mdp : RHParameter)
    (h : convertParameter a mdp = .ok a1) :
    a1.Command = a.Command ∧ a1.Agent.Name = a.Agent.Name ∧
    a1.Agent.ShortDesc = a.Agent.ShortDesc ∧ a1.Agent.LongDesc = a.Agent.LongDesc ∧
    a1.Agent.Actions = a.Agent.Actions ∧ a1.Agent.UnfenceAction = a.Agent.UnfenceAction ∧
    a1.Agent.UnfenceOnTarget = a.Agent.UnfenceOnTarget ∧
    a1.Agent.DefaultAction = (recognizedDefault mdp).getD a.Agent.DefaultAction ∧
    a1.Agent.MultiplePorts = (a.Agent.MultiplePorts || decide (mdp.Name = "port")) ∧
    ((((mdp.Name = "action" ∧ mdp.Content.Default ≠ "") ∨ mdp.Name = "port" ∨
        mdp.Name = "separator") ∧ a1.Agent.Parameters = a.Agent.Parameters) ∨
     (¬ (mdp.Name = "action" ∧ mdp.Content.Default ≠ "") ∧ mdp.Name ≠ "port" ∧
        mdp.Name ≠ "separator" ∧
        a1.Agent.Parameters = a.Agent.Parameters.set mdp.Name (specParameter mdp))) := by
  unfold convertParameter at h
  split_ifs at h with c1 c2 c3
  · have hport : mdp.Name ≠ "port" := by rw [c1.1]; decide
    cases hsa : StringToAction mdp.Content.Default with
    | error e =>
      rw [hsa] at h
      cases h
      simp [recognizedDefault, c1.1, hsa, Except.toOption, c1.2]
    | ok fa =>
      rw [hsa] at h
      cases h
      simp [recognizedDefault, c1.1, hsa, Except.toOption, c1.2]
  · cases h
    simp [recognizedDefault_of_not_guard mdp c1, c2]
  · cases h
    have hport : mdp.Name ≠ "port" := c2
    simp [recognizedDefault_of_not_guard mdp c1, c3]
  · cases htp : toParameter a.Agent.Name mdp with
    | error e => rw [htp] at h; cases h
    | ok p =>
      rw [htp] at h
      cases h
      have hp := toParameter_ok _ _ _ htp
      subst hp
      refine ⟨rfl, rfl, rfl, rfl, rfl, rfl, rfl, ?_, ?_, Or.inr ⟨c1, c2, c3, ?_⟩⟩
      · simp [recognizedDefault_of_not_guard mdp c1]
      · simp [c2]
      · rfl

/-- The fields of the agent that a successful parameter loop leaves alone,
the default action it sets and the multi-port flag it sets. -/
theorem convertParameters_ok (ps : List RHParameter) :
    ∀ a a1 : RHAgent, convertParameters a ps = .ok a1 →
      a1.Command = a.Command ∧ a1.Agent.Name = a.Agent.Name ∧
      a1.Agent.ShortDesc = a.Agent.ShortDesc ∧ a1.Agent.LongDesc = a.Agent.LongDesc ∧
      a1.Agent.Actions = a.Agent.Actions ∧ a1.Agent.UnfenceAction = a.Agent.UnfenceAction ∧
      a1.Agent.UnfenceOnTarget = a.Agent.UnfenceOnTarget ∧
      a1.Agent.DefaultAction =
        ((ps.filterMap recognizedDefault).getLast?).getD a.Agent.DefaultAction ∧
      a1.Agent.MultiplePorts =
        (a.Agent.MultiplePorts || ps.any (fun mdp => decide (mdp.Name = "port"))) := by
  induction ps with
  | nil =>
    intro a a1 h
    simp only [convertParameters] at h
    cases h
    simp
  | cons mdp rest ih =>
    intro a a1 h
    rw [convertParameters_cons] at h
    cases hstep : convertParameter a mdp with
    | error e => rw [hstep] at h; cases h
    | ok a2 =>
      rw [hstep] at h
      obtain ⟨s1, s2, s3, s4, s5, s6, s7, s8, s9, _⟩ := convertParameter_ok a a2 mdp hstep
      obtain ⟨t1, t2, t3, t4, t5, t6, t7, t8, t9⟩ := ih a2 a1 h
      refine ⟨t1.trans s1, t2.trans s2, t3.trans s3, t4.trans s4, t5.trans s5, t6.trans s6,
        t7.trans s7, ?_, ?_⟩
      · rw [t8, s8, List.filterMap_cons]
        cases hrd : recognizedDefault mdp with
        | none => simp
        | some fa =>
          simp only [Option.getD_some, List.getLast?_cons]
      · rw [t9, s9]
        simp [Bool.or_assoc]

/-- Under a name that no kept declaration carries, the parameter map is left
as it was. -/
theorem convertParameters_get?_skipped (n : String) (ps : List RHParameter) :
    ∀ a a1 : RHAgent, convertParameters a ps = .ok a1 →
      (∀ mdp ∈ ps, mdp.Name = n → (mdp.Name = "action" ∧ mdp.Content.Default ≠ "") ∨
        mdp.Name = "port" ∨ mdp.Name = "separator") →
      a1.Agent.Parameters.get? n = a.Agent.Parameters.get? n := by
  induction ps with
  | nil =>
    intro a a1 h _
    simp only [convertParameters] at h
    cases h
    rfl
  | cons mdp rest ih =>
    intro a a1 h hskip
    rw [convertParameters_cons] at h
    cases hstep : convertParameter a mdp with
    | error e => rw [hstep] at h; cases h
    | ok a2 =>
      rw [hstep] at h
      have hrest := ih a2 a1 h (fun q hq => hskip q (List.mem_cons_of_mem _ hq))
      rw [hrest]
      obtain ⟨_, _, _, _, _, _, _, _, _, hpar⟩ := convertParameter_ok a a2 mdp hstep
      rcases hpar with ⟨_, hsame⟩ | ⟨k1, k2, k3, hset⟩
      · rw [hsame]
      · have hne : n ≠ mdp.Name := by
          intro hn
          rcases hskip mdp (List.mem_cons_self _ _) hn.symm with h1 | h2 | h3
          · exact k1 h1
          · exact k2 h2
          · exact k3 h3
        rw [hset, GoMap.get?_set, if_neg hne]

/-- Under a name other than `action`, `port` and `separator`, the parameter
map holds the conversion of the last declaration of that name, or what it
held before when there is none. -/
theorem convertParameters_get? (n : String) (hna : n ≠ "action") (hnp : n ≠ "port")
    (hns : n ≠ "separator") (ps : List RHParameter) :
    ∀ a a1 : RHAgent, convertParameters a ps = .ok a1 →
      a1.Agent.Parameters.get? n =
        (((ps.filter (fun mdp => decide (mdp.Name = n))).getLast?).map specParameter).or
          (a.Agent.Parameters.get? n) := by
  induction ps with
  | nil =>
    intro a a1 h
    simp only [convertParameters] at h
    cases h
    simp
  | cons mdp rest ih =>
    intro a a1 h
    rw [convertParameters_cons] at h
    cases hstep : convertParameter a mdp with
    | error e => rw [hstep] at h; cases h
    | ok a2 =>
      rw [hstep] at h
      rw [ih a2 a1 h]
      obtain ⟨_, _, _, _, _, _, _, _, _, hpar⟩ := convertParameter_ok a a2 mdp hstep
      by_cases hn : mdp.Name = n
      · have hkept : a2.Agent.Parameters = a.Agent.Parameters.set mdp.Name (specParameter mdp) := by
          rcases hpar with ⟨hsk, _⟩ | ⟨_, _, _, hset⟩
          · rcases hsk with h1 | h2 | h3
            · exact absurd (hn ▸ h1.1) hna
            · exact absurd (hn ▸ h2) hnp
            · exact absurd (hn ▸ h3) hns
          · exact hset
        rw [hkept, GoMap.get?_set, if_pos hn.symm]
        simp only [List.filter_cons, hn, decide_True, if_true, List.getLast?_cons]
        cases (List.filter (fun mdp => decide (mdp.Name = n)) rest).getLast? <;> simp
      · have hsame : a2.Agent.Parameters.get? n = a.Agent.Parameters.get? n := by
          rcases hpar with ⟨_, hsame⟩ | ⟨_, _, _, hset⟩
          · rw [hsame]
          · rw [hset, GoMap.get?_set, if_neg (fun h => hn h.symm)]
        rw [hsame]
        simp [List.filter_cons, hn]

/-- Every entry of the parameter map after a successful loop was there
before or is the conversion of a kept declaration, stored under its name. -/
theorem convertParameters_mem (ps : List RHParameter) :
    ∀ a a1 : RHAgent, convertParameters a ps = .ok a1 →
      ∀ e ∈ a1.Agent.Parameters, e ∈ a.Agent.Parameters ∨
        ∃ mdp ∈ ps, ¬ (mdp.Name = "action" ∧ mdp.Content.Default ≠ "") ∧ mdp.Name ≠ "port" ∧
          mdp.Name ≠ "separator" ∧ e = (mdp.Name, specParameter mdp) := by
  induction ps with
  | nil =>
    intro a a1 h e he
    simp only [convertParameters] at h
    cases h
    exact Or.inl he
  | cons mdp rest ih =>
    intro a a1 h e he
    rw [convertParameters_cons] at h
    cases hstep : convertParameter a mdp with
    | error err => rw [hstep] at h; cases h
    | ok a2 =>
      rw [hstep] at h
      obtain ⟨_, _, _, _, _, _, _, _, _, hpar⟩ := convertParameter_ok a a2 mdp hstep
      rcases ih a2 a1 h e he with hin | ⟨q, hq, hk⟩
      · rcases hpar with ⟨_, hsame⟩ | ⟨k1, k2, k3, hset⟩
        · exact Or.inl (hsame ▸ hin)
        · rw [hset] at hin
          rcases GoMap.mem_set _ _ _ _ hin with heq | hold
          · exact Or.inr ⟨mdp, List.mem_cons_self _ _, k1, k2, k3, heq⟩
          · exact Or.inl hold
      · exact Or.inr ⟨q, List.mem_cons_of_mem _ hq, hk⟩

/-! ### The normalised agent -/

/-- A successful `toResourceAgent` is a successful parameter loop followed by
the action loop. -/
theorem toResourceAgent_ok (r : RHResourceAgent) (a : RHAgent)
    (h : r.toResourceAgent = .ok a) :
    ∃ a0 a1 : RHAgent, a0.Agent.Name = r.Name ∧ a0.Agent.Parameters = [] ∧
      a0.Agent.Actions = [] ∧ a0.Agent.DefaultAction = .None ∧
      a0.Agent.MultiplePorts = false ∧ a0.Agent.UnfenceAction = .None ∧
      a0.Agent.UnfenceOnTarget = false ∧
      convertParameters a0 r.Parameters = .ok a1 ∧ a = r.Actions.foldl convertAction a1 := by
  unfold RHResourceAgent.toResourceAgent at h
  simp only at h
  cases hloop : convertParameters
      { Command := r.Command,
        Agent := { newRHAgent.Agent with
          Name := r.Name, ShortDesc := r.ShortDesc, LongDesc := r.LongDesc } } r.Parameters with
  | error e => rw [hloop] at h; cases h
  | ok a1 =>
    rw [hloop] at h
    cases h
    exact ⟨_, a1, rfl, rfl, rfl, rfl, rfl, rfl, rfl, hloop, rfl⟩

/-- The function `StringToAction` never returns the action `None`. -/
theorem StringToAction_ne_None (s : String) : StringToAction s ≠ .ok .None := by
  unfold StringToAction
  split_ifs <;> simp

/-- C11: on success, `DefaultAction` is the action named by the default of
the last declared parameter `action` whose default is a recognised token, and
is `None` when no parameter `action` has a recognised default; a default that
is no recognised token contributes nothing. -/
theorem toResourceAgent_DefaultAction (r : RHResourceAgent) (a : RHAgent)
    (h : r.toResourceAgent = .ok a) :
    a.Agent.DefaultAction = ((r.Parameters.filterMap recognizedDefault).getLast?).getD .None ∧
    (∀ mdp fa, recognizedDefault mdp = some fa ↔
      (mdp.Name = "action" ∧ StringToAction mdp.Content.Default = .ok fa)) ∧
    ((∀ mdp ∈ r.Parameters, mdp.Name = "action" →
        ∀ fa, StringToAction mdp.Content.Default ≠ .ok fa) →
      a.Agent.DefaultAction = .None) := by
  obtain ⟨a0, a1, _, _, _, hd0, _, _, _, hloop, rfl⟩ := toResourceAgent_ok r a h
  obtain ⟨_, _, _, _, _, hda, _, _, _, _⟩ := foldl_convertAction r.Actions a1
  obtain ⟨_, _, _, _, _, _, _, hdp, _⟩ := convertParameters_ok r.Parameters a0 a1 hloop
  have hmain : (r.Actions.foldl convertAction a1).Agent.DefaultAction =
      ((r.Parameters.filterMap recognizedDefault).getLast?).getD .None := by
    rw [hda, hdp, hd0]
  have hspec : ∀ mdp fa, recognizedDefault mdp = some fa ↔
      (mdp.Name = "action" ∧ StringToAction mdp.Content.Default = .ok fa) := by
    intro mdp fa
    unfold recognizedDefault
    by_cases hn : mdp.Name = "action"
    · cases hsa : StringToAction mdp.Content.Default <;> simp [hn, Except.toOption]
    · simp [hn]
  refine ⟨hmain, hspec, ?_⟩
  intro hnone
  rw [hmain]
  have : r.Parameters.filterMap recognizedDefault = [] := by
    rw [List.filterMap_eq_nil_iff]
    intro mdp hmdp
    cases hrd : recognizedDefault mdp with
    | none => rfl
    | some fa =>
      obtain ⟨hn, hsa⟩ := (hspec mdp fa).mp hrd
      exact absurd hsa (hnone mdp hmdp hn fa)
  rw [this]
  rfl

/-- Witness for C11: with the defaults `off`, `reboot` and `bogus` declared
in that order the default action is `Reboot`, and with the one default
`bogus` it is `None`. -/
theorem toResourceAgent_DefaultAction_witness :
    (∃ a, reservedTree.toResourceAgent = .ok a ∧ a.Agent.DefaultAction = .Reboot) ∧
    (∃ a, toleratedTree.toResourceAgent = .ok a ∧ a.Agent.DefaultAction = .None) :=
  ⟨⟨_, rfl, (toResourceAgent_DefaultAction reservedTree _ rfl).1.trans (by decide)⟩,
   ⟨_, rfl, (toResourceAgent_DefaultAction toleratedTree _ rfl).2.2 (by
      intro mdp hmem _ fa
      simp only [toleratedTree, List.mem_singleton] at hmem
      subst hmem
      cases fa <;> decide)⟩⟩

/-- C12: on success, the parameter map has no entry under the key `port`, and
`MultiplePorts` is true if and only if the tree declares a parameter named
`port`, whatever its content type and default. -/
theorem toResourceAgent_port (r : RHResourceAgent) (a : RHAgent)
    (h : r.toResourceAgent = .ok a) :
    a.Agent.Parameters.get? "port" = none ∧
    (∀ e ∈ a.Agent.Parameters, e.1 ≠ "port") ∧
    (a.Agent.MultiplePorts = true ↔ ∃ mdp ∈ r.Parameters, mdp.Name = "port") := by
  obtain ⟨a0, a1, _, hp0, _, _, hm0, _, _, hloop, rfl⟩ := toResourceAgent_ok r a h
  obtain ⟨_, _, _, _, hpa, _, hma, _, _, _⟩ := foldl_convertAction r.Actions a1
  obtain ⟨_, _, _, _, _, _, _, _, hmp⟩ := convertParameters_ok r.Parameters a0 a1 hloop
  have hget : (r.Actions.foldl convertAction a1).Agent.Parameters.get? "port" = none := by
    rw [hpa, convertParameters_get?_skipped "port" r.Parameters a0 a1 hloop
      (fun mdp _ hn => Or.inr (Or.inl hn)), hp0]
    rfl
  refine ⟨hget, ?_, ?_⟩
  · intro e he hk
    have hnone := hget
    unfold GoMap.get? at hnone
    rw [List.lookup_eq_none_iff] at hnone
    exact absurd (hnone e he) (by simp [hk])
  · rw [hma, hmp, hm0]
    simp

/-- Witness for C12: a tree with a `port` parameter of an unknown content
type, and the tree of `TestToResourceAgent`, which has none. -/
theorem toResourceAgent_port_witness :
    (∃ a, reservedTree.toResourceAgent = .ok a ∧ a.Agent.Parameters.get? "port" = none ∧
      a.Agent.MultiplePorts = true) ∧
    (∃ a, testTree.toResourceAgent = .ok a ∧ ¬ a.Agent.MultiplePorts = true) :=
  ⟨⟨_, rfl, (toResourceAgent_port reservedTree _ rfl).1,
      (toResourceAgent_port reservedTree _ rfl).2.2.mpr
        ⟨{ Name := "port", Unique := false, Required := false, ShortDesc := "Plug",
           Content := { ContentType := "wrongtype", Default := "", Options := [] } },
         by decide, rfl⟩⟩,
   ⟨_, rfl, fun hm => by
      obtain ⟨mdp, hmem, hn⟩ := (toResourceAgent_port testTree _ rfl).2.2.mp hm
      revert hn
      revert mdp
      decide⟩⟩

/-- C13 (counterexample): a tree whose one parameter has the content type
`select` and nests no option normalises to an agent whose parameter `mode`
has `HasOptions` true and an empty `Options` sequence. -/
theorem toResourceAgent_select_without_options :
    ∃ a, (treeOf selectWithoutOptions).toResourceAgent = .ok a ∧
      ∃ e ∈ a.Agent.Parameters, e.2.HasOptions = true ∧ e.2.ContentType = .String ∧
        e.2.Options = [] ∧
        ¬ (e.2.HasOptions = true → e.2.ContentType = .String ∧ e.2.Options ≠ []) :=
  ⟨_, rfl, _, List.mem_singleton.mpr rfl, by decide, by decide, by decide, by decide⟩

/-- C13 (amended): on success, every parameter of the agent whose `HasOptions`
is true has the content type String, and is stored under the name of a
declared parameter of content type `select` whose nested option values, in
document order, are its `Options`; they are empty when that declaration nests
no option. -/
theorem toResourceAgent_HasOptions (r : RHResourceAgent) (a : RHAgent)
    (h : r.toResourceAgent = .ok a) :
    ∀ e ∈ a.Agent.Parameters, e.2.HasOptions = true →
      e.2.ContentType = .String ∧
      ∃ mdp ∈ r.Parameters, mdp.Name = e.1 ∧ e.2.Name = e.1 ∧
        mdp.Content.ContentType = "select" ∧
        e.2.Options = mdp.Content.Options.map (fun o => o.Value) ∧
        (e.2.Options ≠ [] ↔ mdp.Content.Options ≠ []) := by
  obtain ⟨a0, a1, _, hp0, _, _, _, _, _, hloop, rfl⟩ := toResourceAgent_ok r a h
  obtain ⟨_, _, _, _, hpa, _, _, _, _, _⟩ := foldl_convertAction r.Actions a1
  intro e he hopt
  rw [hpa] at he
  rcases convertParameters_mem r.Parameters a0 a1 hloop e he with hin | ⟨mdp, hmdp, _, _, _, heq⟩
  · rw [hp0] at hin
    cases hin
  · subst heq
    have hsel : mdp.Content.ContentType = "select" := by
      simpa [specParameter] using hopt
    have hnb : mdp.Content.ContentType ≠ "boolean" := by rw [hsel]; decide
    refine ⟨by simp [specParameter, hnb], mdp, hmdp, rfl, rfl, hsel, rfl, ?_⟩
    simp [specParameter]

/-- Witness for C13: the parameter `param05` of `TestToResourceAgent`. -/
theorem toResourceAgent_HasOptions_witness :
    ∃ a, testTree.toResourceAgent = .ok a ∧
      ∃ e ∈ a.Agent.Parameters, e.1 = "param05" ∧ e.2.ContentType = .String ∧
        e.2.Options = ["option01", "option02"] :=
  ⟨_, rfl, ("param05", specParameter
      { Name := "param05", Unique := false, Required := false, ShortDesc := "param05",
        Content := { ContentType := "select", Default := "option01",
                     Options := [{ Value := "option01" }, { Value := "option02" }] } }),
    by decide, rfl,
    (toResourceAgent_HasOptions testTree _ rfl _ (by decide) (by decide)).1, by decide⟩

/-- C14: on success, under every name `n` other than `action`, `port` and
`separator` the parameter map holds the conversion of the last declared
parameter named `n`, as the specification describes it, and holds nothing
when no declared parameter is named `n`. -/
theorem toResourceAgent_Parameters (r : RHResourceAgent) (a : RHAgent)
    (h : r.toResourceAgent = .ok a) (n : String)
    (hna : n ≠ "action") (hnp : n ≠ "port") (hns : n ≠ "separator") :
    a.Agent.Parameters.get? n =
      ((r.Parameters.filter (fun mdp => decide (mdp.Name = n))).getLast?).map specParameter ∧
    ((∃ p, a.Agent.Parameters.get? n = some p) ↔ ∃ mdp ∈ r.Parameters, mdp.Name = n) := by
  obtain ⟨a0, a1, _, hp0, _, _, _, _, _, hloop, rfl⟩ := toResourceAgent_ok r a h
  obtain ⟨_, _, _, _, hpa, _, _, _, _, _⟩ := foldl_convertAction r.Actions a1
  have hmain : (r.Actions.foldl convertAction a1).Agent.Parameters.get? n =
      ((r.Parameters.filter (fun mdp => decide (mdp.Name = n))).getLast?).map specParameter := by
    rw [hpa, convertParameters_get? n hna hnp hns r.Parameters a0 a1 hloop, hp0]
    cases (List.filter (fun mdp => decide (mdp.Name = n)) r.Parameters).getLast? <;> rfl
  refine ⟨hmain, ?_⟩
  rw [hmain]
  constructor
  · rintro ⟨p, hp⟩
    cases hlast : (List.filter (fun mdp => decide (mdp.Name = n)) r.Parameters).getLast? with
    | none => rw [hlast] at hp; cases hp
    | some mdp =>
      have hmem := List.mem_of_getLast?_eq_some hlast
      rw [List.mem_filter] at hmem
      exact ⟨mdp, hmem.1, by simpa using hmem.2⟩
  · rintro ⟨mdp, hmem, hn⟩
    have hin : mdp ∈ List.filter (fun mdp => decide (mdp.Name = n)) r.Parameters :=
      List.mem_filter.mpr ⟨hmem, by simpa using hn⟩
    cases hlast : (List.filter (fun mdp => decide (mdp.Name = n)) r.Parameters).getLast? with
    | none =>
      rw [List.getLast?_eq_none_iff] at hlast
      rw [hlast] at hin
      cases hin
    | some q => exact ⟨specParameter q, rfl⟩

/-- Witness for C14: the boolean parameters `param03` and `param04` of
`TestToResourceAgent`, and a parameter declared twice. -/
theorem toResourceAgent_Parameters_witness :
    (∃ a, testTree.toResourceAgent = .ok a ∧
      a.Agent.Parameters.get? "param03" =
        some { Name := "param03", Unique := false, Required := true, Desc := "param03",
               ContentType := .Boolean, HasOptions := false, Default := some (.bool false),
               Options := [] }) ∧
    (∃ a, testTree.toResourceAgent = .ok a ∧
      a.Agent.Parameters.get? "param04" =
        some { Name := "param04", Unique := true, Required := false, Desc := "param04",
               ContentType := .Boolean, HasOptions := false, Default := some (.bool true),
               Options := [] }) ∧
    (∃ a, reservedTree.toResourceAgent = .ok a ∧
      a.Agent.Parameters.get? "login" =
        some { Name := "login", Unique := true, Required := true, Desc := "second",
               ContentType := .String, HasOptions := false, Default := none,
               Options := [] }) :=
  ⟨⟨_, rfl, (toResourceAgent_Parameters testTree _ rfl "param03"
      (by decide) (by decide) (by decide)).1.trans (by decide)⟩,
   ⟨_, rfl, (toResourceAgent_Parameters testTree _ rfl "param04"
      (by decide) (by decide) (by decide)).1.trans (by decide)⟩,
   ⟨_, rfl, (toResourceAgent_Parameters reservedTree _ rfl "login"
      (by decide) (by decide) (by decide)).1.trans (by decide)⟩⟩

/-- C15: on success, `Actions` is the list of declared action names mapped
through `StringToAction` with the unrecognised names left out: the order of
declaration is kept, so are duplicates, the synonyms `enable` and `disable`
give `On` and `Off`, and `None` does not occur. -/
theorem toResourceAgent_Actions (r : RHResourceAgent) (a : RHAgent)
    (h : r.toResourceAgent = .ok a) :
    a.Agent.Actions = r.Actions.filterMap (fun mda => (StringToAction mda.Name).toOption) ∧
    Action.None ∉ a.Agent.Actions := by
  obtain ⟨a0, a1, _, _, ha0, _, _, _, _, hloop, rfl⟩ := toResourceAgent_ok r a h
  obtain ⟨_, _, _, _, _, _, _, hact, _, _⟩ := foldl_convertAction r.Actions a1
  obtain ⟨_, _, _, _, hap, _, _, _, _⟩ := convertParameters_ok r.Parameters a0 a1 hloop
  have hmain : (r.Actions.foldl convertAction a1).Agent.Actions =
      r.Actions.filterMap (fun mda => (StringToAction mda.Name).toOption) := by
    rw [hact, hap, ha0, List.nil_append]
  refine ⟨hmain, ?_⟩
  rw [hmain, List.mem_filterMap]
  rintro ⟨mda, _, hsa⟩
  cases hs : StringToAction mda.Name with
  | error e => rw [hs] at hsa; cases hsa
  | ok fa =>
    rw [hs] at hsa
    have : fa = Action.None := by simpa [Except.toOption] using hsa
    exact StringToAction_ne_None mda.Name (this ▸ hs)

/-- Witness for C15: the actions of `TestToResourceAgent`, where `metadata` is
left out, and a tree declaring `enable`, `validate-all`, `disable`, `enable`. -/
theorem toResourceAgent_Actions_witness :
    (∃ a, testTree.toResourceAgent = .ok a ∧
      a.Agent.Actions = [.On, .Off, .Status, .List, .Monitor]) ∧
    (∃ a, reservedTree.toResourceAgent = .ok a ∧ a.Agent.Actions = [.On, .Off, .On]) :=
  ⟨⟨_, rfl, (toResourceAgent_Actions testTree _ rfl).1.trans (by decide)⟩,
   ⟨_, rfl, (toResourceAgent_Actions reservedTree _ rfl).1.trans (by decide)⟩⟩

/-- C16: on success, `UnfenceAction` is `On` if and only if some declared
action named exactly `on` has `automatic` equal to `1`, and is `None`
otherwise; `UnfenceOnTarget` is true if and only if some declared action
named exactly `on` has `on_target` equal to `1`.  The attributes of actions
with any other name, `enable` included, have no effect. -/
theorem toResourceAgent_Unfence (r : RHResourceAgent) (a : RHAgent)
    (h : r.toResourceAgent = .ok a) :
    (a.Agent.UnfenceAction = .On ↔
      ∃ mda ∈ r.Actions, mda.Name = "on" ∧ mda.Automatic = "1") ∧
    (¬ (∃ mda ∈ r.Actions, mda.Name = "on" ∧ mda.Automatic = "1") →
      a.Agent.UnfenceAction = .None) ∧
    (a.Agent.UnfenceOnTarget = true ↔
      ∃ mda ∈ r.Actions, mda.Name = "on" ∧ mda.OnTarget = "1") := by
  obtain ⟨a0, a1, _, _, _, _, _, hu0, ht0, hloop, rfl⟩ := toResourceAgent_ok r a h
  obtain ⟨_, _, _, _, _, _, _, _, hua, hta⟩ := foldl_convertAction r.Actions a1
  obtain ⟨_, _, _, _, _, hup, htp, _, _⟩ := convertParameters_ok r.Parameters a0 a1 hloop
  rw [hua, hta, hup, htp, hu0, ht0]
  refine ⟨?_, ?_, ?_⟩
  · by_cases hex : ∃ mda ∈ r.Actions, mda.Name = "on" ∧ mda.Automatic = "1"
    · simp only [hex, if_true]
    · simp only [hex, if_false, iff_false]
      decide
  · intro hex
    simp only [hex, if_false]
  · by_cases hex : ∃ mda ∈ r.Actions, mda.Name = "on" ∧ mda.OnTarget = "1"
    · simp only [hex, if_true]
    · simp only [hex, if_false, iff_false]
      decide

/-- Witness for C16: the action `on` of `TestToResourceAgent` with both
attributes set, and a tree whose only attributes are on an action `enable`. -/
theorem toResourceAgent_Unfence_witness :
    (∃ a, testTree.toResourceAgent = .ok a ∧ a.Agent.UnfenceAction = .On ∧
      a.Agent.UnfenceOnTarget = true) ∧
    (∃ a, reservedTree.toResourceAgent = .ok a ∧ a.Agent.UnfenceAction = .None) :=
  ⟨⟨_, rfl,
     (toResourceAgent_Unfence testTree _ rfl).1.mpr
       ⟨{ Name := "on", OnTarget := "1", Automatic := "1" }, by decide, rfl, rfl⟩,
     (toResourceAgent_Unfence testTree _ rfl).2.2.mpr
       ⟨{ Name := "on", OnTarget := "1", Automatic := "1" }, by decide, rfl, rfl⟩⟩,
   ⟨_, rfl, (toResourceAgent_Unfence reservedTree _ rfl).2.1 (by decide)⟩⟩

/-! ### The catalog after a load -/

/-- A loop of `LoadAgents` in which no round finds the budget used up returns
no error, starts every candidate, and leaves under each name the last
successfully loaded agent of that name, or what the catalog held before. -/
theorem loadLoop_no_timeout (env : Env) (timeout : Int) :
    ∀ (files : List String) (k : Nat) (agents : GoMap RHAgent) (started : List (String × Int)),
      (∀ j, j < files.length → ¬ (timeout ≠ 0 ∧ wrap64 (timeout - env.since (k + j)) < 0)) →
      (loadLoop env timeout k files agents started).err = none ∧
      (loadLoop env timeout k files agents started).started.map (fun s => s.1) =
        started.map (fun s => s.1) ++ files ∧
      ∀ n, (loadLoop env timeout k files agents started).agents.get? n =
        ((((loadOutcomes env timeout k files).filterMap Except.toOption).filter
          (fun a => decide (a.Agent.Name = n))).getLast?).or (agents.get? n) := by
  intro files
  induction files with
  | nil => intro k agents started _; simp [loadLoop, loadOutcomes]
  | cons file rest ih =>
    intro k agents started hnt
    have h0 : ¬ (timeout ≠ 0 ∧ wrap64 (timeout - env.since k) < 0) := by
      simpa using hnt 0 (by simp)
    have hrest : ∀ j, j < rest.length →
        ¬ (timeout ≠ 0 ∧ wrap64 (timeout - env.since (k + 1 + j)) < 0) := by
      intro j hj
      have := hnt (j + 1) (by simpa using hj)
      rwa [show k + 1 + j = k + (j + 1) by omega]
    have hguard : ¬ (timeout ≠ 0 ∧
        (if timeout ≠ 0 then wrap64 (timeout - env.since k) else 0) < 0) := by
      rintro ⟨ht, hlt⟩
      rw [if_pos ht] at hlt
      exact h0 ⟨ht, hlt⟩
    rw [loadLoop]
    simp only [hguard, if_false, loadOutcomes]
    cases hload : RHAgentProvider.LoadAgent env file
        (if timeout ≠ 0 then wrap64 (timeout - env.since k) else 0) with
    | error e =>
      obtain ⟨i1, i2, i3⟩ := ih (k + 1) agents
        (started ++ [(file, if timeout ≠ 0 then wrap64 (timeout - env.since k) else 0)]) hrest
      refine ⟨i1, ?_, ?_⟩
      · rw [i2]; simp
      · intro n
        rw [i3 n]
        simp [Except.toOption]
    | ok a =>
      obtain ⟨i1, i2, i3⟩ := ih (k + 1) (agents.set a.Agent.Name a)
        (started ++ [(file, if timeout ≠ 0 then wrap64 (timeout - env.since k) else 0)]) hrest
      refine ⟨i1, ?_, ?_⟩
      · rw [i2]; simp
      · intro n
        rw [i3 n, GoMap.get?_set]
        by_cases hn : a.Agent.Name = n
        · simp only [List.filterMap_cons, Except.toOption, List.filter_cons, hn, decide_True,
            if_true, List.getLast?_cons, if_pos hn.symm]
          cases (List.filter (fun a => decide (a.Agent.Name = n))
            (List.filterMap Except.toOption (loadOutcomes env timeout (k + 1) rest))).getLast?
            <;> simp
        · have hn2 : ¬ n = a.Agent.Name := fun h => hn h.symm
          rw [if_neg hn2]
          simp only [List.filterMap_cons, Except.toOption, List.filter_cons, hn, decide_False,
            Bool.false_eq_true, if_false]

/-- C17: a call of `LoadAgents` whose glob yields the candidates `files` and in
which no round finds the budget used up returns no error and starts every
candidate; afterwards the catalog holds under each name the last candidate,
in glob order, whose single-agent load succeeded and reported that name, and
nothing under a name that no successful load reported, whatever the catalog
held before. -/
theorem LoadAgents_catalog (env : Env) (p : RHAgentProvider) (timeout : Int)
    (files : List String) (hglob : env.glob p.config.Glob = .ok files)
    (hnt : ∀ k, k < files.length → ¬ (timeout ≠ 0 ∧ wrap64 (timeout - env.since k) < 0)) :
    (p.LoadAgents env timeout).err = none ∧
    (p.LoadAgents env timeout).started.map (fun s => s.1) = files ∧
    ∀ n, (p.LoadAgents env timeout).agents.get? n =
      (((loadOutcomes env timeout 0 files).filterMap Except.toOption).filter
        (fun a => decide (a.Agent.Name = n))).getLast? := by
  have hloop := loadLoop_no_timeout env timeout files 0 [] [] (by simpa using hnt)
  unfold RHAgentProvider.LoadAgents
  rw [hglob]
  obtain ⟨h1, h2, h3⟩ := hloop
  refine ⟨h1, by simpa using h2, ?_⟩
  intro n
  rw [h3 n]
  cases (List.filter (fun a => decide (a.Agent.Name = n))
    (List.filterMap Except.toOption (loadOutcomes env timeout 0 files))).getLast? <;> rfl

/-- Witness for C17: three candidates, of which the second fails to load and
the first and third both report the name `agent01`; the catalog held an agent
under the name `stale` before. -/
theorem LoadAgents_catalog_witness :
    (staleProvider.LoadAgents loadEnv 0).err = none ∧
    (staleProvider.LoadAgents loadEnv 0).agents.get? "stale" = none ∧
    (staleProvider.LoadAgents loadEnv 0).agents.get? "agent01" =
      some { Command := "/usr/sbin/fence_b",
             Agent := { NewAgent with Name := "agent01", ShortDesc := "/usr/sbin/fence_b" } } :=
  ⟨(LoadAgents_catalog loadEnv staleProvider 0
      ["/usr/sbin/fence_a", "/usr/sbin/fence_bad", "/usr/sbin/fence_b"] rfl
      (fun _ _ h => h.1 rfl)).1,
   ((LoadAgents_catalog loadEnv staleProvider 0
      ["/usr/sbin/fence_a", "/usr/sbin/fence_bad", "/usr/sbin/fence_b"] rfl
      (fun _ _ h => h.1 rfl)).2.2 "stale").trans (by decide),
   ((LoadAgents_catalog loadEnv staleProvider 0
      ["/usr/sbin/fence_a", "/usr/sbin/fence_bad", "/usr/sbin/fence_b"] rfl
      (fun _ _ h => h.1 rfl)).2.2 "agent01").trans (by decide)⟩

/-! ### Unknown agents -/

/-- C18: `GetAgent` fails, with the message `Unknown agent: ` followed by the
name, exactly when the name is no key of the catalog, and returns the agent
stored under the name otherwise.  `Status`, `Monitor`, `List` and `Run` on a
config whose agent name is no key of the catalog return that same error, and
the invocation behind them starts no process and writes nothing. -/
theorem unknown_agent (env : Env) (p : RHAgentProvider) (ac : AgentConfig) (timeout : Int)
    (name : String) :
    ((∃ e, p.GetAgent name = .error e) ↔ p.agents.get? name = none) ∧
    (p.agents.get? name = none ↔ ∀ e ∈ p.agents, e.1 ≠ name) ∧
    (p.agents.get? name = none →
      p.GetAgent name = .error (.errorString ("Unknown agent: " ++ name))) ∧
    (∀ a, p.agents.get? name = some a → p.GetAgent name = .ok a.Agent) ∧
    (p.agents.get? ac.Name = none →
      p.Status env ac timeout = (.Ko, some (.errorString ("Unknown agent: " ++ ac.Name))) ∧
      p.Monitor env ac timeout = (.Ko, some (.errorString ("Unknown agent: " ++ ac.Name))) ∧
      p.List env ac timeout = .error (.errorString ("Unknown agent: " ++ ac.Name)) ∧
      (∀ action, p.Run env ac action timeout
        = some (.errorString ("Unknown agent: " ++ ac.Name))) ∧
      (∀ token, (p.run env ac token timeout).spawned = false ∧
        (p.run env ac token timeout).stdin = []) ∧
      (∀ action, (p.RunCall env ac action timeout).spawned = false ∧
        (p.RunCall env ac action timeout).stdin = [])) := by
  refine ⟨?_, ?_, ?_, ?_, ?_⟩
  · unfold RHAgentProvider.GetAgent
    cases hg : p.agents.get? name with
    | none => simp
    | some a => simp
  · unfold GoMap.get?
    rw [List.lookup_eq_none_iff]
    constructor
    · intro h e he hk
      have := h e he
      simp [hk] at this
    · intro h e he
      have := h e he
      simpa using fun hk : name = e.1 => this hk.symm
  · intro h
    simp [RHAgentProvider.GetAgent, h]
  · intro a h
    simp [RHAgentProvider.GetAgent, h]
  · intro h
    have hrun : ∀ token, p.run env ac token timeout =
        { spawned := false, stdin := [], out := none,
          err := some (.errorString ("Unknown agent: " ++ ac.Name)) } := by
      intro token
      simp [RHAgentProvider.run, RHAgentProvider.getRHAgent, h]
    refine ⟨?_, ?_, ?_, ?_, ?_, ?_⟩
    · simp [RHAgentProvider.Status, hrun, GoError.isExitError]
    · simp [RHAgentProvider.Monitor, hrun, GoError.isExitError]
    · simp [RHAgentProvider.List, hrun]
    · intro action
      simp [RHAgentProvider.Run, RHAgentProvider.RunCall, hrun]
    · intro token
      simp [hrun]
    · intro action
      simp [RHAgentProvider.RunCall, hrun]

/-- Witness for C18: the catalog of `TestRun` has `agent01` and lacks
`agent99`. -/
theorem unknown_agent_witness :
    provider01.GetAgent "agent01" = .ok agent01.Agent ∧
    provider01.GetAgent "agent99" = .error (.errorString "Unknown agent: agent99") ∧
    provider01.List (constEnv catProc [] 0) unknownConfig 0
      = .error (.errorString "Unknown agent: agent99") ∧
    (provider01.RunCall (constEnv catProc [] 0) unknownConfig .Off 0).stdin = [] :=
  ⟨(unknown_agent (constEnv catProc [] 0) provider01 unknownConfig 0 "agent01").2.2.2.1
      agent01 (by decide),
   (unknown_agent (constEnv catProc [] 0) provider01 unknownConfig 0 "agent99").2.2.1
      (by decide),
   ((unknown_agent (constEnv catProc [] 0) provider01 unknownConfig 0 "agent99").2.2.2.2
      (by decide)).2.2.1,
   (((unknown_agent (constEnv catProc [] 0) provider01 unknownConfig 0 "agent99").2.2.2.2
      (by decide)).2.2.2.2.2 .Off).2⟩

/-! ### Empty lines in the port list -/

/-- The fields of a text are one more than its separators. -/
theorem Split_length (sep : Char) (l : List Char) :
    (Split sep l).length = l.count sep + 1 := by
  induction l with
  | nil => rfl
  | cons c l ih =>
    by_cases hc : c = sep
    · subst hc
      simp [Split, ih]
    · have hcount : (c :: l).count sep = l.count sep := by
        rw [List.count_cons]
        simp [hc]
      cases hs : Split sep l with
      | nil => rw [hs] at ih; simp at ih
      | cons f fs =>
        rw [hs] at ih
        simp only [Split, hc, if_false, hs, hcount]
        simpa using ih

/-- A line from which the code builds a port has at most one comma. -/
theorem count_le_one_of_portOfLine (l : List Char) (pn : PortName)
    (h : portOfLine l = .ok pn) : l.count ',' ≤ 1 := by
  have hlen := Split_length ',' l
  unfold portOfLine at h
  cases hs : Split ',' l with
  | nil => rw [hs] at hlen; simp at hlen
  | cons f fs =>
    cases fs with
    | nil => rw [hs] at hlen; simp at hlen; omega
    | cons g gs =>
      cases gs with
      | nil => rw [hs] at hlen; simp at hlen; omega
      | cons x xs => rw [hs] at h; simp at h

/-- A scan loop that succeeds has appended one port per line, the one the
specification describes. -/
theorem scanPorts_ok :
    ∀ (lines : List (List Char)) (portList ports : PortList),
      scanPorts lines portList = .ok ports → ports = portList ++ lines.map specPort := by
  intro lines
  induction lines with
  | nil =>
    intro portList ports h
    simp only [scanPorts] at h
    cases h
    simp
  | cons l lines ih =>
    intro portList ports h
    rw [scanPorts] at h
    cases hp : portOfLine l with
    | error e => rw [hp] at h; cases h
    | ok pn =>
      rw [hp] at h
      have hpn : pn = specPort l := by
        have := portOfLine_of_count_le_one l (count_le_one_of_portOfLine l pn hp)
        rw [hp] at this
        cases this
        rfl
      rw [ih _ _ h, hpn]
      simp

/-- C19 (counterexample): on the output `alpha\n\nbravo\n`, which has two
non-empty lines and one empty line, `List` succeeds and returns three ports,
the second of which has an empty name. -/
theorem List_keeps_blank_line :
    (provider01.run (constEnv (printProc blankLineOutput 0) [] 0) config01 "list" 0).out
      = some blankLineOutput ∧
    ((splitLines blankLineOutput.data).filter (fun l => decide (l ≠ []))).length = 2 ∧
    ∃ ports, provider01.List (constEnv (printProc blankLineOutput 0) [] 0) config01 0
        = .ok ports ∧
      ports = [{ Name := "alpha", Alias := "" }, { Name := "", Alias := "" },
               { Name := "bravo", Alias := "" }] ∧
      ports.length ≠ ((splitLines blankLineOutput.data).filter (fun l => decide (l ≠ []))).length ∧
      ∃ port ∈ ports, port.Name = "" :=
  ⟨by decide, by decide, _, rfl, by decide, by decide, { Name := "", Alias := "" }, by decide,
    rfl⟩

/-- C19 (amended): when the `list` invocation succeeds, every line of the
captured output is shorter than `MaxScanTokenSize` bytes and `List` succeeds,
every line, empty or not, contributes exactly one port, in output order: the
number of ports returned equals the number of lines, and an empty line gives
the port with an empty name and an empty alias. -/
theorem List_one_port_per_line_blank_included (env : Env) (p : RHAgentProvider)
    (ac : AgentConfig) (timeout : Int) (out : String) (ports : PortList)
    (herr : (p.run env ac "list" timeout).err = none)
    (hout : (p.run env ac "list" timeout).out = some out)
    (hshort : ∀ l ∈ splitLines out.data, byteLen l < MaxScanTokenSize)
    (hok : p.List env ac timeout = .ok ports) :
    ports = (splitLines out.data).map (fun l => specPort (dropCR l)) ∧
    ports.length = (splitLines out.data).length ∧
    specPort (dropCR []) = { Name := "", Alias := "" } := by
  have htake : (splitLines out.data).takeWhile
      (fun l => decide (byteLen l < MaxScanTokenSize)) = splitLines out.data := by
    rw [List.takeWhile_eq_self_iff]
    intro l hl
    simpa using hshort l hl
  rw [List_of_output env p ac timeout out herr hout] at hok
  unfold parsePortList scanTexts at hok
  rw [htake] at hok
  have hports := scanPorts_ok _ _ _ hok
  have hmain : ports = (splitLines out.data).map (fun l => specPort (dropCR l)) := by
    rw [hports]
    simp [List.map_map, Function.comp_def]
  refine ⟨hmain, ?_, by decide⟩
  rw [hmain, List.length_map]

/-- Witness for C19: the output `alpha\n\nbravo\n`. -/
theorem List_one_port_per_line_blank_included_witness :
    [({ Name := "alpha", Alias := "" } : PortName), { Name := "", Alias := "" },
      { Name := "bravo", Alias := "" }].length = (splitLines blankLineOutput.data).length :=
  (List_one_port_per_line_blank_included (constEnv (printProc blankLineOutput 0) [] 0)
    provider01 config01 0 blankLineOutput _ rfl rfl (by decide) (by decide)).2.1

/-! ### The configuration stream -/

/-- What has been written when the writes end is what was written before
followed by a first part of the pending texts. -/
theorem writeAll_prefix (cmd : Proc) :
    ∀ (ws : List String) (k : Nat) (done : List String),
      ∃ j, (writeAll cmd k ws done).1 = done ++ ws.take j := by
  intro ws
  induction ws with
  | nil => intro k done; exact ⟨0, by simp [writeAll]⟩
  | cons w ws ih =>
    intro k done
    rw [writeAll]
    cases hw : cmd.writeErr k with
    | some msg => exact ⟨0, by simp⟩
    | none =>
      obtain ⟨j, hj⟩ := ih (k + 1) (done ++ [w])
      exact ⟨j + 1, by simp [hj]⟩

/-- The texts written by `run` are a first part of the configuration lines. -/
theorem run_stdin_prefix (env : Env) (p : RHAgentProvider) (ac : AgentConfig) (token : String)
    (timeout : Int) : (p.run env ac token timeout).stdin <+: configLines ac token := by
  unfold RHAgentProvider.run
  cases hg : p.getRHAgent ac.Name with
  | error e => simp
  | ok a =>
    simp only
    cases hp : (env.spawn a.Command []).pipeErr with
    | some msg => simp
    | none =>
      cases hs : (env.spawn a.Command []).startErr with
      | some msg => simp
      | none =>
        obtain ⟨j, hj⟩ := writeAll_prefix (env.spawn a.Command []) (configLines ac token) 0 []
        cases hw : writeAll (env.spawn a.Command []) 0 (configLines ac token) [] with
        | mk written werr =>
          rw [hw] at hj
          simp only [List.nil_append] at hj
          cases werr with
          | some e => simp only; rw [hj]; exact List.take_prefix _ _
          | none => simp only; rw [hj]; exact List.take_prefix _ _

/-- When the agent is known, the child starts and no write fails, `run` writes
all the configuration lines. -/
theorem run_stdin_all (env : Env) (p : RHAgentProvider) (ac : AgentConfig) (token : String)
    (timeout : Int) (a : RHAgent) (ha : p.agents.get? ac.Name = some a)
    (hp : (env.spawn a.Command []).pipeErr = none)
    (hs : (env.spawn a.Command []).startErr = none)
    (hw : ∀ j, j < (configLines ac token).length → (env.spawn a.Command []).writeErr j = none) :
    (p.run env ac token timeout).stdin = configLines ac token := by
  have hall := writeAll_ok (env.spawn a.Command []) (configLines ac token) 0 []
    (by simpa using hw)
  simp only [List.nil_append] at hall
  simp only [RHAgentProvider.run, RHAgentProvider.getRHAgent, ha, hp, hs, hall]

/-- C20: for an action `a` other than `None`, `Run` invokes `run` with the
token `ActionToString a`, and the texts it writes to the standard input of
the agent are a first part of: the line
`action=<ActionToString a>`, then the line `port=<port>` when the port is not
empty, then one line `<name>=<value>` for every value of every parameter, in
the order of the values; they are all of these lines when the agent is known,
the child starts and no write fails.  Every line ends in a newline, and the
parameter lines are as many as the value lists are long together. -/
theorem RunCall_stream (env : Env) (p : RHAgentProvider) (ac : AgentConfig) (a : Action)
    (timeout : Int) (ha : a ≠ .None) :
    p.RunCall env ac a timeout = p.run env ac (ActionToString a) timeout ∧
    (p.RunCall env ac a timeout).stdin <+:
      (["action=" ++ ActionToString a ++ "\n"] ++
        (if ac.Port ≠ "" then ["port=" ++ ac.Port ++ "\n"] else []) ++
        ac.Parameters.flatMap (fun e => e.2.map (fun value => e.1 ++ "=" ++ value ++ "\n"))) ∧
    (∀ a0, p.agents.get? ac.Name = some a0 →
      (env.spawn a0.Command []).pipeErr = none → (env.spawn a0.Command []).startErr = none →
      (∀ j, (env.spawn a0.Command []).writeErr j = none) →
      (p.RunCall env ac a timeout).stdin =
        ["action=" ++ ActionToString a ++ "\n"] ++
          (if ac.Port ≠ "" then ["port=" ++ ac.Port ++ "\n"] else []) ++
          ac.Parameters.flatMap (fun e => e.2.map (fun value => e.1 ++ "=" ++ value ++ "\n"))) ∧
    (ac.Parameters.flatMap (fun e => e.2.map (fun value => e.1 ++ "=" ++ value ++ "\n"))).length
      = (ac.Parameters.map (fun e => e.2.length)).sum ∧
    (∀ l ∈ ["action=" ++ ActionToString a ++ "\n"] ++
        (if ac.Port ≠ "" then ["port=" ++ ac.Port ++ "\n"] else []) ++
        ac.Parameters.flatMap (fun e => e.2.map (fun value => e.1 ++ "=" ++ value ++ "\n")),
      ∃ body, l = body ++ "\n") := by
  have hcall : p.RunCall env ac a timeout = p.run env ac (ActionToString a) timeout := by
    simp [RHAgentProvider.RunCall, ha]
  refine ⟨hcall, ?_, ?_, ?_, ?_⟩
  · rw [hcall]
    exact run_stdin_prefix env p ac (ActionToString a) timeout
  · intro a0 hk hp hs hw
    rw [hcall]
    exact run_stdin_all env p ac (ActionToString a) timeout a0 hk hp hs (fun j _ => hw j)
  · induction ac.Parameters with
    | nil => rfl
    | cons e es ih => simp [List.flatMap_cons, ih]
  · intro l hl
    simp only [List.mem_append, List.mem_singleton, List.mem_flatMap, List.mem_map] at hl
    rcases hl with (hl | hl) | ⟨e, _, v, _, hl⟩
    · exact ⟨_, hl⟩
    · by_cases hport : ac.Port = ""
      · simp [hport] at hl
      · simp only [ne_eq, hport, not_false_eq_true, if_true, List.mem_singleton] at hl
        exact ⟨_, hl⟩
    · exact ⟨_, hl.symm⟩

/-- Witness for C20: `Run` with the action `Off`, a port and a parameter with
three values. -/
theorem RunCall_stream_witness :
    (provider01.RunCall (constEnv catProc [] 0) multiConfig .Off 0).stdin =
      ["action=off\n", "port=3\n", "ipaddr=10.0.0.1\n", "opt=a\n", "opt=b\n", "opt=c\n"] :=
  ((RunCall_stream (constEnv catProc [] 0) provider01 multiConfig .Off 0 (by decide)).2.2.1
    agent01 (by decide) rfl rfl (fun _ => rfl)).trans (by decide)

end RHProvider
